import Mathlib

/-!
Verification of the dimension-agnostic expression builder
(`src/math_engine/builder.py`, class `DimensionAgnosticBuilder`).

Strings are modelled as `List Char`.  Every scanning loop of the Python
code (regular-expression search, `str.replace`, `re.sub`) is translated
into a structurally recursive scan; scans that advance by more than one
character per step take an explicit fuel argument, always called with
fuel at least `length + 1`, which is sufficient because every step
consumes at least one character.  Numeric parameter values are modelled
by their `str()` rendering, which is the only way the Python code ever
uses them.
-/

namespace MathTool

/-- Strings as lists of characters. -/
abbrev Str := List Char

/-- Convert a Lean string literal to the `List Char` model. -/
def strOf (s : String) : Str := s.toList

/-- Value of a digit run, as computed by Python `int(...)` on the text
captured by a regular expression group. -/
def natOfDigits (ds : Str) : Nat := ds.foldl (fun n c => n * 10 + (c.toNat - 48)) 0

/-- Characters allowed inside a macro argument by the matcher
`(sum|prod|max|min)\(([^()]+)\)`: anything except parentheses. -/
def nonParen (c : Char) : Bool := c != '(' && c != ')'

/-- The four aggregate functions recognised by `_expand_functions`. -/
inductive AggFn where
  | sumF | prodF | maxF | minF
deriving DecidableEq

/-- Name of an aggregate function as it appears in the source pattern. -/
def func_name : AggFn → Str
  | .sumF => strOf "sum"
  | .prodF => strOf "prod"
  | .maxF => strOf "max"
  | .minF => strOf "min"

/-- Failure modes of the builder.  `indexOutOfRange` is the explicit
`ValueError` raised by `_replace_indexed_dims` when `idx >= dimension`;
`coordTableMiss` is the Python `IndexError` raised by
`self.coord_names[idx]` when the index is within the requested dimension
but beyond the 10-entry table; `dimensionTooLarge` is the `ValueError`
of `get_coords`; `unknownIdentity` and `dimensionTooLow` are raised by
`expand_identity`; `noFuel` marks fuel exhaustion of the modelled
`while` loop and is never reached with the fuel used. -/
inductive BuilderErr where
  | indexOutOfRange (idx d : Nat)
  | coordTableMiss (idx : Nat)
  | dimensionTooLarge
  | unknownIdentity
  | dimensionTooLow
  | noFuel
deriving DecidableEq

/-- One entry of the identity library: the template text, the default
parameter mapping (values kept as their `str()` rendering), the
description, and the optional minimum dimension (`identity.get('min_dim', 1)`). -/
structure IdentityEntry where
  expr : Str
  params : List (Str × Str)
  description : Str
  min_dim : Nat := 1
deriving DecidableEq

/-- The state of a `DimensionAgnosticBuilder` object: the coordinate
name table and the identity library, as assigned in `__init__`.
(`coord_symbols` mirrors `coord_names` one-to-one and is never used by
`expand`/`expand_identity`, so it is not repeated here.) -/
structure Builder where
  coord_names : List Str
  identities : List (Str × IdentityEntry)
deriving DecidableEq

/-- The builder produced by `DimensionAgnosticBuilder.__init__`. -/
def defaultBuilder : Builder where
  coord_names :=
    [strOf "x", strOf "y", strOf "z", strOf "w", strOf "v",
     strOf "u", strOf "t", strOf "s", strOf "r", strOf "q"]
  identities :=
    [ (strOf "Circle/Sphere",
        { expr := strOf "sum(Dim^2) = r^2",
          params := [(strOf "r", strOf "5")],
          description := strOf "Circle (2D) or Sphere (3D)" }),
      (strOf "Diamond/Octahedron",
        { expr := strOf "sum(|Dim|) = r",
          params := [(strOf "r", strOf "1")],
          description := strOf "Diamond (2D) or Octahedron (3D)" }),
      (strOf "Square/Cube",
        { expr := strOf "max(|Dim|) = r",
          params := [(strOf "r", strOf "1")],
          description := strOf "Square (2D) or Cube (3D)" }),
      (strOf "Ellipse/Ellipsoid",
        { expr := strOf "sum(Dim^2/a^2) = 1",
          params := [(strOf "a", strOf "2")],
          description := strOf "Ellipse (2D) or Ellipsoid (3D) - uniform scaling" }),
      (strOf "Scaled Ellipsoid",
        { expr := strOf "Dim[0]^2/a^2 + Dim[1]^2/b^2 + Dim[2]^2/c^2 = 1",
          params := [(strOf "a", strOf "3"), (strOf "b", strOf "2"), (strOf "c", strOf "1")],
          description := strOf "Ellipsoid with different axis scales (3D only)",
          min_dim := 3 }),
      (strOf "Superellipse/Superquadric",
        { expr := strOf "sum(|Dim|^p) = r^p",
          params := [(strOf "r", strOf "1"), (strOf "p", strOf "2.5")],
          description := strOf "Rounded square (p>2) or pinched diamond (p<2)" }),
      (strOf "Hyperbola/Hyperboloid (1-sheet)",
        { expr := strOf "Dim[0]^2 + Dim[1]^2 - Dim[2]^2 = 1",
          params := [],
          description := strOf "Hyperboloid of one sheet (3D)",
          min_dim := 3 }),
      (strOf "Hyperboloid (2-sheet)",
        { expr := strOf "Dim[0]^2 + Dim[1]^2 - Dim[2]^2 = -1",
          params := [],
          description := strOf "Hyperboloid of two sheets (3D)",
          min_dim := 3 }),
      (strOf "Line/Plane/Hyperplane",
        { expr := strOf "sum(Dim) = 0",
          params := [],
          description := strOf "Line (2D), Plane (3D), or Hyperplane (nD)" }),
      (strOf "Torus",
        { expr := strOf "(sqrt(Dim[0]^2 + Dim[1]^2) - R)^2 + Dim[2]^2 = r^2",
          params := [(strOf "R", strOf "3"), (strOf "r", strOf "1")],
          description := strOf "Torus (3D) - donut shape",
          min_dim := 3 }),
      (strOf "Hyperbolic Paraboloid",
        { expr := strOf "Dim[0]^2 - Dim[1]^2 = Dim[2]",
          params := [],
          description := strOf "Saddle surface (3D)",
          min_dim := 3 }),
      (strOf "Norm Ball",
        { expr := strOf "sum(Dim^2)^0.5 = r",
          params := [(strOf "r", strOf "5")],
          description := strOf "Same as sphere, using explicit norm" }),
      (strOf "Astroid",
        { expr := strOf "sum(|Dim|^(2/3)) = 1",
          params := [],
          description := strOf "Star-like shape" }) ]

/-- Equality on builder results is decidable. -/
instance {e a : Type} [DecidableEq e] [DecidableEq a] : DecidableEq (Except e a) := fun x y =>
  match x, y with
  | .ok u, .ok v => decidable_of_iff (u = v) (by simp)
  | .error u, .error v => decidable_of_iff (u = v) (by simp)
  | .ok _, .error _ => isFalse (by simp)
  | .error _, .ok _ => isFalse (by simp)

/-- `get_coords`: raises when more than the 10 table entries are requested,
otherwise returns the first `n` coordinate names. -/
def get_coords (b : Builder) (n : Nat) : Except BuilderErr (List Str) :=
  if n > b.coord_names.length then .error .dimensionTooLarge
  else .ok (b.coord_names.take n)

/-- Scan of `re.sub(r'Dim\[(\d+)\]', replacer, expr_str)` from
`_replace_indexed_dims`.  The scan advances one character on a failed
position and past the whole match on a successful one; the replacer
raises when the captured index is `>= dimension`, and indexing the
coordinate table raises when the index is in range for the dimension but
beyond the table.  Each step consumes at least one character, so fuel
`length + 1` never runs out. -/
def replace_indexed_dims_aux (b : Builder) (d : Nat) : Nat → Str → Except BuilderErr Str
  | 0, _ => .error .noFuel
  | _ + 1, [] => .ok []
  | fuel + 1, 'D' :: 'i' :: 'm' :: '[' :: rest =>
      match rest.dropWhile Char.isDigit with
      | ']' :: rest2 =>
          if (rest.takeWhile Char.isDigit).isEmpty then
            (fun t => 'D' :: t) <$> replace_indexed_dims_aux b d fuel ('i' :: 'm' :: '[' :: rest)
          else if natOfDigits (rest.takeWhile Char.isDigit) ≥ d then
            .error (.indexOutOfRange (natOfDigits (rest.takeWhile Char.isDigit)) d)
          else
            match b.coord_names.get? (natOfDigits (rest.takeWhile Char.isDigit)) with
            | some cn => (fun t => cn ++ t) <$> replace_indexed_dims_aux b d fuel rest2
            | none => .error (.coordTableMiss (natOfDigits (rest.takeWhile Char.isDigit)))
      | _ =>
          (fun t => 'D' :: t) <$> replace_indexed_dims_aux b d fuel ('i' :: 'm' :: '[' :: rest)
  | fuel + 1, c :: rest => (fun t => c :: t) <$> replace_indexed_dims_aux b d fuel rest

/-- `_replace_indexed_dims`. -/
def replace_indexed_dims (b : Builder) (s : Str) (d : Nat) : Except BuilderErr Str :=
  replace_indexed_dims_aux b d (s.length + 1) s

/-- Anchored attempt of one alternative of the pattern
`(sum|prod|max|min)\(([^()]+)\)`: the literal name, `(`, a non-empty
greedy run of non-parenthesis characters, `)`.  Returns the captured
argument and the remainder after the match. -/
def tryMatch1 (name : Str) (s : Str) : Option (Str × Str) :=
  if (name ++ ['(']).isPrefixOf s then
    match (s.drop (name.length + 1)).dropWhile nonParen with
    | ')' :: rest2 =>
        if ((s.drop (name.length + 1)).takeWhile nonParen).isEmpty then none
        else some ((s.drop (name.length + 1)).takeWhile nonParen, rest2)
    | _ => none
  else none

/-- Anchored attempt of the whole macro pattern, alternatives in the
order of the source pattern. -/
def tryMatch (s : Str) : Option (AggFn × Str × Str) :=
  match tryMatch1 (func_name .sumF) s with
  | some (i, r) => some (.sumF, i, r)
  | none =>
    match tryMatch1 (func_name .prodF) s with
    | some (i, r) => some (.prodF, i, r)
    | none =>
      match tryMatch1 (func_name .maxF) s with
      | some (i, r) => some (.maxF, i, r)
      | none =>
        match tryMatch1 (func_name .minF) s with
        | some (i, r) => some (.minF, i, r)
        | none => none

/-- `re.search` for the macro pattern: leftmost anchored match, returning
the text before the match, the function, the captured argument, and the
text after the match. -/
def find_call : Str → Option (Str × AggFn × Str × Str)
  | [] => none
  | c :: cs =>
    match tryMatch (c :: cs) with
    | some (k, inner, rest) => some ([], k, inner, rest)
    | none =>
      match find_call cs with
      | some (pre, k, inner, rest) => some (c :: pre, k, inner, rest)
      | none => none

/-- Scan of Python `str.replace(pat, rep)`: non-overlapping, left to
right.  Fuel `length + 1` never runs out for non-empty `pat` (the code
only ever replaces the literal `Dim`). -/
def replaceAll_aux (pat rep : Str) : Nat → Str → Str
  | 0, s => s
  | _ + 1, [] => []
  | fuel + 1, c :: rest =>
      if pat.isPrefixOf (c :: rest) && !pat.isEmpty then
        rep ++ replaceAll_aux pat rep fuel ((c :: rest).drop pat.length)
      else
        c :: replaceAll_aux pat rep fuel rest

/-- `inner_expr.replace('Dim', coord)` and friends. -/
def replaceAll (s pat rep : Str) : Str := replaceAll_aux pat rep (s.length + 1) s

/-- The per-coordinate copies built for one matched macro call: one copy
of the argument per coordinate of the active dimension, `Dim`
substituted by the coordinate name. -/
def terms_of (b : Builder) (inner : Str) (d : Nat) : List Str :=
  (b.coord_names.take d).map (fun cn => replaceAll inner (strOf "Dim") cn)

/-- The replacement text spliced in for one matched macro call: the
copies combined by `' + '`/`' * '` joins of parenthesised copies for
`sum`/`prod` and by a `Max(...)`/`Min(...)` call for `max`/`min`. -/
def replacement (b : Builder) (k : AggFn) (inner : Str) (d : Nat) : Str :=
  match k with
  | .sumF => List.intercalate (strOf " + ") ((terms_of b inner d).map (fun t => '(' :: (t ++ [')'])))
  | .prodF => List.intercalate (strOf " * ") ((terms_of b inner d).map (fun t => '(' :: (t ++ [')'])))
  | .maxF => strOf "Max(" ++ List.intercalate (strOf ", ") (terms_of b inner d) ++ [')']
  | .minF => strOf "Min(" ++ List.intercalate (strOf ", ") (terms_of b inner d) ++ [')']

/-- The `while True` loop of `_expand_functions`: repeatedly find the
leftmost macro match and splice in `'(' + replacement + ')'`.  One unit
of fuel per replacement; the loop exits via the no-match branch. -/
def expand_functions_aux (b : Builder) (d : Nat) : Nat → Str → Except BuilderErr Str
  | 0, s =>
    match find_call s with
    | none => .ok s
    | some _ => .error .noFuel
  | fuel + 1, s =>
    match find_call s with
    | none => .ok s
    | some (pre, k, inner, post) =>
        expand_functions_aux b d fuel (pre ++ '(' :: (replacement b k inner d ++ ')' :: post))

/-- `_expand_functions`. -/
def expand_functions (b : Builder) (s : Str) (d : Nat) : Except BuilderErr Str :=
  expand_functions_aux b d s.length s

/-- Python word character for `\b`: letters, digits, underscore. -/
def isWordChar (c : Char) : Bool := c.isAlphanum || c = '_'

def isWordOpt : Option Char → Bool
  | none => false
  | some c => isWordChar c

/-- A `\b` boundary holds between two (possibly absent) characters when
exactly one of them is a word character. -/
def wordBoundary (a b : Option Char) : Bool := isWordOpt a != isWordOpt b

/-- Scan of `re.sub(r'\b' + name + r'\b', val, s)` for a non-empty
parameter name made of word characters: anchored literal match of `name`
guarded by boundaries on both sides; on success scanning resumes after
the matched text of the original string.  `prev` is the character left
of the current position.  Fuel `length + 1` never runs out. -/
def sub_word_aux (name val : Str) : Nat → Option Char → Str → Str
  | 0, _, s => s
  | _ + 1, _, [] => []
  | fuel + 1, prev, c :: rest =>
      if name.isPrefixOf (c :: rest) && wordBoundary prev (some c)
          && wordBoundary name.getLast? ((c :: rest).drop name.length).head? then
        val ++ sub_word_aux name val fuel name.getLast? ((c :: rest).drop name.length)
      else
        c :: sub_word_aux name val fuel (some c) rest

/-- One `re.sub(r'\b' + param_name + r'\b', str(param_value), expr_str)`
step of `_replace_params`.  An empty parameter name never occurs in the
repository; it is modelled as the identity substitution. -/
def sub_word (name val s : Str) : Str :=
  if name.isEmpty then s else sub_word_aux name val (s.length + 1) none s

/-- `_replace_params`: fold the substitutions over the mapping in
insertion order. -/
def replace_params (s : Str) (ps : List (Str × Str)) : Str :=
  ps.foldl (fun acc p => sub_word p.1 p.2 acc) s

/-- `expand`: indexed-placeholder pass, then macro pass, then parameter
pass. -/
def expand (b : Builder) (s : Str) (d : Nat) (ps : List (Str × Str)) :
    Except BuilderErr Str := do
  let s1 ← replace_indexed_dims b s d
  let s2 ← expand_functions b s1 d
  return replace_params s2 ps

/-- `self.identities.get(name)`. -/
def lookup_identity (b : Builder) (name : Str) : Option IdentityEntry :=
  (b.identities.find? (fun e => e.1 == name)).map (·.2)

/-- `final_params = identity['params'].copy(); final_params.update(params)`:
values of colliding keys are overridden in place, new keys are appended
in override order. -/
def merge_params (defaults overrides : List (Str × Str)) : List (Str × Str) :=
  defaults.map (fun kv => (kv.1, (((overrides.find? (fun o => o.1 == kv.1)).map (·.2)).getD kv.2)))
    ++ overrides.filter (fun o => (defaults.find? (fun kv => kv.1 == o.1)).isNone)

/-- `expand_identity`. -/
def expand_identity (b : Builder) (name : Str) (d : Nat)
    (overrides : Option (List (Str × Str))) : Except BuilderErr Str :=
  match lookup_identity b name with
  | none => .error .unknownIdentity
  | some e =>
    if d < e.min_dim then .error .dimensionTooLow
    else expand b e.expr d (merge_params e.params (overrides.getD []))

/-- State-passing form of `expand`: a Python method call receives the
object and may reassign its fields; `expand` reassigns only the local
`expr_str`, so the translated method hands the builder back unchanged. -/
def expandSt (b : Builder) (s : Str) (d : Nat) (ps : List (Str × Str)) :
    Except BuilderErr Str × Builder :=
  (expand b s d ps, b)

/-- State-passing form of `expand_identity`; the method copies the stored
default mapping (`identity['params'].copy()`) before updating it, so the
library entry and the builder are handed back unchanged. -/
def expand_identitySt (b : Builder) (name : Str) (d : Nat)
    (overrides : Option (List (Str × Str))) : Except BuilderErr Str × Builder :=
  (expand_identity b name d overrides, b)

/-- Python `pat in s` (substring test). -/
def occurs (pat : Str) : Str → Bool
  | [] => pat.isEmpty
  | s@(_ :: rest) => pat.isPrefixOf s || occurs pat rest

/-- A fully expanded result: no `Dim` text and no matchable macro-call
head left. -/
def noResidual (s : Str) : Bool :=
  !occurs (strOf "Dim") s && !occurs (strOf "sum(") s && !occurs (strOf "prod(") s
    && !occurs (strOf "max(") s && !occurs (strOf "min(") s

/-!
A small algebraic reader used to state the equivalence claims of the
specification: two expression strings are equivalent when both parse in
the declared output grammar (`+ - * / ^ ( )`, calls `Max`/`Min`/`Abs`,
absolute-value bars, numeric literals, free names) and denote the same
rational-valued function of their free names.  `^` and `**` both denote
the power operator.
-/

inductive Tok where
  | num (q : ℚ)
  | ident (s : Str)
  | plus | minus | star | slash | caret
  | lparen | rparen | comma | bar | eqT
deriving DecidableEq

/-- Rational value of an integer literal with optional fraction digits. -/
def litVal (ds fs : Str) : ℚ :=
  (natOfDigits ds : ℚ) + (natOfDigits fs : ℚ) / ((10 : ℚ) ^ fs.length)

def tokenize_aux : Nat → Str → Option (List Tok)
  | 0, _ => none
  | _ + 1, [] => some []
  | fuel + 1, c :: rest =>
    if c = ' ' then tokenize_aux fuel rest
    else if c.isDigit then
      let ds := (c :: rest).takeWhile Char.isDigit
      match (c :: rest).dropWhile Char.isDigit with
      | '.' :: r2 =>
          let fs := r2.takeWhile Char.isDigit
          if fs.isEmpty then none
          else (fun ts => Tok.num (litVal ds fs) :: ts) <$>
            tokenize_aux fuel (r2.dropWhile Char.isDigit)
      | r1 => (fun ts => Tok.num (litVal ds []) :: ts) <$> tokenize_aux fuel r1
    else if c.isAlpha then
      (fun ts => Tok.ident ((c :: rest).takeWhile Char.isAlpha) :: ts) <$>
        tokenize_aux fuel ((c :: rest).dropWhile Char.isAlpha)
    else if c = '*' then
      match rest with
      | '*' :: r => (fun ts => Tok.caret :: ts) <$> tokenize_aux fuel r
      | _ => (fun ts => Tok.star :: ts) <$> tokenize_aux fuel rest
    else if c = '+' then (fun ts => Tok.plus :: ts) <$> tokenize_aux fuel rest
    else if c = '-' then (fun ts => Tok.minus :: ts) <$> tokenize_aux fuel rest
    else if c = '/' then (fun ts => Tok.slash :: ts) <$> tokenize_aux fuel rest
    else if c = '^' then (fun ts => Tok.caret :: ts) <$> tokenize_aux fuel rest
    else if c = '(' then (fun ts => Tok.lparen :: ts) <$> tokenize_aux fuel rest
    else if c = ')' then (fun ts => Tok.rparen :: ts) <$> tokenize_aux fuel rest
    else if c = ',' then (fun ts => Tok.comma :: ts) <$> tokenize_aux fuel rest
    else if c = '|' then (fun ts => Tok.bar :: ts) <$> tokenize_aux fuel rest
    else if c = '=' then (fun ts => Tok.eqT :: ts) <$> tokenize_aux fuel rest
    else none

def tokenize (s : Str) : Option (List Tok) := tokenize_aux (s.length + 1) s

/-- Abstract syntax of the output grammar.  `Max`/`Min` calls are folded
left into the binary operations. -/
inductive AExpr where
  | num (q : ℚ)
  | var (s : Str)
  | add (a b : AExpr)
  | sub (a b : AExpr)
  | mul (a b : AExpr)
  | div (a b : AExpr)
  | pow (a b : AExpr)
  | neg (a : AExpr)
  | absE (a : AExpr)
  | maxB (a b : AExpr)
  | minB (a b : AExpr)
deriving DecidableEq

mutual

/-- Additive level. -/
def pExpr : Nat → List Tok → Option (AExpr × List Tok)
  | 0, _ => none
  | fuel + 1, ts => do
    let (a, r) ← pTerm fuel ts
    pExprT fuel a r

def pExprT : Nat → AExpr → List Tok → Option (AExpr × List Tok)
  | 0, _, _ => none
  | fuel + 1, a, .plus :: r => do
    let (b, r2) ← pTerm fuel r
    pExprT fuel (.add a b) r2
  | fuel + 1, a, .minus :: r => do
    let (b, r2) ← pTerm fuel r
    pExprT fuel (.sub a b) r2
  | _ + 1, a, r => some (a, r)

/-- Multiplicative level. -/
def pTerm : Nat → List Tok → Option (AExpr × List Tok)
  | 0, _ => none
  | fuel + 1, ts => do
    let (a, r) ← pFactor fuel ts
    pTermT fuel a r

def pTermT : Nat → AExpr → List Tok → Option (AExpr × List Tok)
  | 0, _, _ => none
  | fuel + 1, a, .star :: r => do
    let (b, r2) ← pFactor fuel r
    pTermT fuel (.mul a b) r2
  | fuel + 1, a, .slash :: r => do
    let (b, r2) ← pFactor fuel r
    pTermT fuel (.div a b) r2
  | _ + 1, a, r => some (a, r)

/-- Unary minus and power level. -/
def pFactor : Nat → List Tok → Option (AExpr × List Tok)
  | 0, _ => none
  | fuel + 1, .minus :: r => do
    let (a, r2) ← pFactor fuel r
    return (.neg a, r2)
  | fuel + 1, ts => do
    let (a, r) ← pAtom fuel ts
    match r with
    | .caret :: r2 => do
      let (b, r3) ← pFactor fuel r2
      return (.pow a b, r3)
    | _ => some (a, r)

/-- Atoms: literals, names, calls, parenthesised groups, bars. -/
def pAtom : Nat → List Tok → Option (AExpr × List Tok)
  | 0, _ => none
  | _ + 1, .num q :: r => some (.num q, r)
  | fuel + 1, .ident f :: .lparen :: r =>
    if f = strOf "Abs" then do
      let (a, r2) ← pExpr fuel r
      match r2 with
      | .rparen :: r3 => some (.absE a, r3)
      | _ => none
    else if f = strOf "Max" then do
      let (a, r2) ← pExpr fuel r
      pArgs fuel .maxB a r2
    else if f = strOf "Min" then do
      let (a, r2) ← pExpr fuel r
      pArgs fuel .minB a r2
    else none
  | _ + 1, .ident v :: r => some (.var v, r)
  | fuel + 1, .lparen :: r => do
    let (a, r2) ← pExpr fuel r
    match r2 with
    | .rparen :: r3 => some (a, r3)
    | _ => none
  | fuel + 1, .bar :: r => do
    let (a, r2) ← pExpr fuel r
    match r2 with
    | .bar :: r3 => some (.absE a, r3)
    | _ => none
  | _ + 1, _ => none

/-- Remaining comma-separated arguments of a `Max`/`Min` call, folded
left by `op`. -/
def pArgs : Nat → (AExpr → AExpr → AExpr) → AExpr → List Tok → Option (AExpr × List Tok)
  | 0, _, _, _ => none
  | fuel + 1, op, acc, .comma :: r => do
    let (b, r2) ← pExpr fuel r
    pArgs fuel op (op acc b) r2
  | _ + 1, _, acc, .rparen :: r => some (acc, r)
  | _ + 1, _, _, _ => none

end

/-- Parse a whole expression (all tokens consumed). -/
def parseExprTokens (ts : List Tok) : Option AExpr :=
  match pExpr (ts.length * 4 + 8) ts with
  | some (a, []) => some a
  | _ => none

/-- Parse an equation string with exactly one `=`. -/
def parseEquation (s : Str) : Option (AExpr × AExpr) := do
  let ts ← tokenize s
  let l := ts.takeWhile (fun t => t ≠ Tok.eqT)
  match ts.dropWhile (fun t => t ≠ Tok.eqT) with
  | .eqT :: r =>
    if r.contains Tok.eqT then none
    else do
      let le ← parseExprTokens l
      let re ← parseExprTokens r
      return (le, re)
  | _ => none

/-- Power with a rational exponent: defined for non-negative integer
exponents (the only ones the library templates produce under the
equivalence claims), zero elsewhere. -/
def qpow (a e : ℚ) : ℚ := if e.den = 1 ∧ 0 ≤ e.num then a ^ e.num.toNat else 0

/-- Denotation of an expression under an assignment of rationals to free
names. -/
def evalA (env : Str → ℚ) : AExpr → ℚ
  | .num q => q
  | .var s => env s
  | .add a b => evalA env a + evalA env b
  | .sub a b => evalA env a - evalA env b
  | .mul a b => evalA env a * evalA env b
  | .div a b => evalA env a / evalA env b
  | .pow a b => qpow (evalA env a) (evalA env b)
  | .neg a => -evalA env a
  | .absE a => |evalA env a|
  | .maxB a b => max (evalA env a) (evalA env b)
  | .minB a b => min (evalA env a) (evalA env b)

/-- Equation strings `s₁` and `s₂` are equivalent: `s₁` parses, and under
every assignment both parse results denote the same pair of side
values. -/
def EquivStr (s₁ s₂ : Str) : Prop :=
  (parseEquation s₁).isSome = true ∧
    ∀ env : Str → ℚ,
      (parseEquation s₁).map (fun p => (evalA env p.1, evalA env p.2)) =
        (parseEquation s₂).map (fun p => (evalA env p.1, evalA env p.2))

/-!  Definitions written from the wording of the specification, used to
compare the source behaviour against the specified one.  -/

/-- Combination rule as worded in the specification: one copy of the
argument per axis of the active dimension, `Dim` substituted by the axis
name from the fixed table, copies parenthesised and joined by `+` for
`sum`, by `*` for `prod`, and passed to a `Max(...)`/`Min(...)` call for
`max`/`min`. -/
def specCombine (k : AggFn) (d : Nat) (E : Str) : Str :=
  let copies := (defaultBuilder.coord_names.take d).map (fun a => replaceAll E (strOf "Dim") a)
  match k with
  | .sumF => List.intercalate (strOf " + ") (copies.map (fun t => '(' :: (t ++ [')'])))
  | .prodF => List.intercalate (strOf " * ") (copies.map (fun t => '(' :: (t ++ [')'])))
  | .maxF => strOf "Max(" ++ List.intercalate (strOf ", ") copies ++ [')']
  | .minF => strOf "Min(" ++ List.intercalate (strOf ", ") copies ++ [')']

/-- A whole-word occurrence of `name` at position `i`, with the
character left of position `0` given by `prev` (used while scanning). -/
def wordMatchAtFrom (name : Str) (prev : Option Char) (s : Str) (i : Nat) : Prop :=
  (s.drop i).take name.length = name
    ∧ wordBoundary (if i = 0 then prev else s.get? (i - 1)) (s.get? i) = true
    ∧ wordBoundary (s.get? (i + name.length - 1)) (s.get? (i + name.length)) = true

/-- A whole-word occurrence of `name` at position `i` of `s`, in the
sense of the pattern `\b name \b`. -/
def wordMatchAt (name : Str) (s : Str) (i : Nat) : Prop :=
  wordMatchAtFrom name none s i

instance (name : Str) (prev : Option Char) (s : Str) (i : Nat) :
    Decidable (wordMatchAtFrom name prev s i) := by
  unfold wordMatchAtFrom; infer_instance

instance (name : Str) (s : Str) (i : Nat) : Decidable (wordMatchAt name s i) := by
  unfold wordMatchAt; infer_instance

/-- Specification-side reading of the `IndexOutOfRange` precondition:
the text contains an indexed placeholder `Dim[i]` with `i` at least the
requested dimension.  The scan enumerates the same non-overlapping
left-to-right occurrences the substitution pass visits. -/
def has_oor_aux (d : Nat) : Nat → Str → Bool
  | 0, _ => false
  | _ + 1, [] => false
  | fuel + 1, 'D' :: 'i' :: 'm' :: '[' :: rest =>
      match rest.dropWhile Char.isDigit with
      | ']' :: rest2 =>
          if (rest.takeWhile Char.isDigit).isEmpty then
            has_oor_aux d fuel ('i' :: 'm' :: '[' :: rest)
          else if natOfDigits (rest.takeWhile Char.isDigit) ≥ d then true
          else has_oor_aux d fuel rest2
      | _ => has_oor_aux d fuel ('i' :: 'm' :: '[' :: rest)
  | fuel + 1, _ :: rest => has_oor_aux d fuel rest

def has_oor (s : Str) (d : Nat) : Bool := has_oor_aux d (s.length + 1) s

/-- Whether a builder result is the `IndexOutOfRange` failure. -/
def isIndexErr : Except BuilderErr Str → Bool
  | .error (.indexOutOfRange _ _) => true
  | _ => false

/-- Check used for the amended C1 statement: for every dimension `d ≤ 10`
admitted by the entry, `expand_identity` returns normally and the result
carries no residual `Dim` or macro-call text. -/
def identity_clean_check (b : Builder) (name : Str) (e : IdentityEntry) : Bool :=
  (List.range 11).all fun d =>
    if e.min_dim ≤ d then
      match expand_identity b name d none with
      | .ok s => noResidual s
      | .error _ => false
    else true

/-- Number of positions of `s` where the macro pattern matches. -/
def phi : Str → Nat
  | [] => 0
  | c :: cs => (if (tryMatch (c :: cs)).isSome then 1 else 0) + phi cs

/-- A position where the anchored macro pattern can fire. -/
def isCallStart (s : Str) : Bool :=
  (func_name .sumF ++ ['(']).isPrefixOf s || (func_name .prodF ++ ['(']).isPrefixOf s ||
    (func_name .maxF ++ ['(']).isPrefixOf s || (func_name .minF ++ ['(']).isPrefixOf s

/-- Number of macro-call occurrences in the notation: positions where a
macro name followed by an opening parenthesis occurs. -/
def call_occurrences : Str → Nat
  | [] => 0
  | c :: cs => (if isCallStart (c :: cs) then 1 else 0) + call_occurrences cs

/-- Token lists of the concrete equation strings compared in the
equivalence claims, spelled out so that the scans below run over literal
lists. -/
def tokC3a1 : List Tok :=
  [.lparen, .lparen, .ident ['x'], .caret, .num (litVal ['2'] []), .rparen, .plus,
   .lparen, .ident ['y'], .caret, .num (litVal ['2'] []), .rparen, .rparen,
   .eqT, .num (litVal ['2', '5'] [])]

def tokC3a2 : List Tok :=
  [.ident ['x'], .caret, .num (litVal ['2'] []), .plus,
   .ident ['y'], .caret, .num (litVal ['2'] []),
   .eqT, .num (litVal ['2', '5'] [])]

def tokC3b1 : List Tok :=
  [.lparen, .lparen, .ident ['x'], .caret, .num (litVal ['2'] []), .rparen, .plus,
   .lparen, .ident ['y'], .caret, .num (litVal ['2'] []), .rparen, .plus,
   .lparen, .ident ['z'], .caret, .num (litVal ['2'] []), .rparen, .rparen,
   .eqT, .num (litVal ['2', '5'] [])]

def tokC3b2 : List Tok :=
  [.ident ['x'], .caret, .num (litVal ['2'] []), .plus,
   .ident ['y'], .caret, .num (litVal ['2'] []), .plus,
   .ident ['z'], .caret, .num (litVal ['2'] []),
   .eqT, .num (litVal ['2', '5'] [])]

def tokC4a : List Tok :=
  [.lparen, .ident ['M', 'a', 'x'], .lparen,
   .bar, .ident ['x'], .bar, .comma,
   .bar, .ident ['y'], .bar, .comma,
   .bar, .ident ['z'], .bar, .rparen, .rparen,
   .eqT, .num (litVal ['1'] [])]

def tokC4b : List Tok :=
  [.ident ['M', 'a', 'x'], .lparen,
   .ident ['A', 'b', 's'], .lparen, .ident ['x'], .rparen, .comma,
   .ident ['A', 'b', 's'], .lparen, .ident ['y'], .rparen, .comma,
   .ident ['A', 'b', 's'], .lparen, .ident ['z'], .rparen, .rparen,
   .eqT, .num (litVal ['1'] [])]

def tokC6a : List Tok :=
  [.lparen, .lparen, .ident ['x'], .caret, .num (litVal ['2'] []), .slash,
   .num (litVal ['3'] []), .caret, .num (litVal ['2'] []), .rparen, .plus,
   .lparen, .ident ['y'], .caret, .num (litVal ['2'] []), .slash,
   .num (litVal ['3'] []), .caret, .num (litVal ['2'] []), .rparen, .rparen,
   .eqT, .num (litVal ['1'] [])]

def tokC6b : List Tok :=
  [.ident ['x'], .caret, .num (litVal ['2'] []), .slash,
   .num (litVal ['3'] []), .caret, .num (litVal ['2'] []), .plus,
   .ident ['y'], .caret, .num (litVal ['2'] []), .slash,
   .num (litVal ['3'] []), .caret, .num (litVal ['2'] []),
   .eqT, .num (litVal ['1'] [])]

/-! ## Supporting lemmas -/

lemma takeWhile_append_cons {p : Char → Bool} : ∀ (E : Str) (c : Char) (r : Str),
    (∀ x ∈ E, p x = true) → p c = false →
    (E ++ c :: r).takeWhile p = E ∧ (E ++ c :: r).dropWhile p = c :: r := by
  intro E
  induction E with
  | nil => intro c r _ hc; simp [List.takeWhile, List.dropWhile, hc]
  | cons a E ih =>
    intro c r hE hc
    have ha : p a = true := hE a (by simp)
    have := ih c r (fun x hx => hE x (by simp [hx])) hc
    simp [List.takeWhile, List.dropWhile, ha, this.1, this.2]

lemma tm1_self (name : Str) (E rest : Str) (hE : E ≠ [])
    (hnp : ∀ c ∈ E, nonParen c = true) :
    tryMatch1 name (name ++ '(' :: (E ++ ')' :: rest)) = some (E, rest) := by
  have hpre : (name ++ ['(']).isPrefixOf (name ++ '(' :: (E ++ ')' :: rest)) = true := by
    rw [List.isPrefixOf_iff_prefix]
    refine ⟨E ++ ')' :: rest, by simp⟩
  have hdrop : (name ++ '(' :: (E ++ ')' :: rest)).drop (name.length + 1) = E ++ ')' :: rest := by
    have : name ++ '(' :: (E ++ ')' :: rest) = (name ++ ['(']) ++ (E ++ ')' :: rest) := by simp
    rw [this, show name.length + 1 = (name ++ ['(']).length by simp, List.drop_left]
  have htw := takeWhile_append_cons (p := nonParen) E ')' rest hnp (by decide)
  unfold tryMatch1
  rw [if_pos hpre, hdrop, htw.1, htw.2]
  simp [hE]

lemma tm1_fail_head (a : Char) (nt : Str) (c : Char) (st : Str) (hne : a ≠ c) :
    tryMatch1 (a :: nt) (c :: st) = none := by
  unfold tryMatch1
  rw [if_neg]
  rw [List.cons_append, List.isPrefixOf_iff_prefix]
  intro h
  exact hne (List.cons_prefix_cons.mp h).1

lemma tm1_fail_snd (a b : Char) (nt : Str) (c : Char) (st : Str) (hne : b ≠ c) :
    tryMatch1 (a :: b :: nt) (a :: c :: st) = none := by
  unfold tryMatch1
  rw [if_neg]
  rw [List.cons_append, List.cons_append, List.isPrefixOf_iff_prefix]
  intro h
  exact hne (List.cons_prefix_cons.mp (List.cons_prefix_cons.mp h).2).1

lemma tryMatch_self (k : AggFn) (E rest : Str) (hE : E ≠ [])
    (hnp : ∀ c ∈ E, nonParen c = true) :
    tryMatch (func_name k ++ '(' :: (E ++ ')' :: rest)) = some (k, E, rest) := by
  cases k
  · unfold tryMatch
    rw [tm1_self _ _ _ hE hnp]
  · have h1 : tryMatch1 (func_name .sumF) (func_name .prodF ++ '(' :: (E ++ ')' :: rest)) = none := by
      rw [show func_name AggFn.prodF ++ '(' :: (E ++ ')' :: rest) =
        'p' :: (['r', 'o', 'd'] ++ '(' :: (E ++ ')' :: rest)) from rfl]
      exact tm1_fail_head 's' _ 'p' _ (by decide)
    unfold tryMatch
    rw [h1, tm1_self _ _ _ hE hnp]
  · have h1 : tryMatch1 (func_name .sumF) (func_name .maxF ++ '(' :: (E ++ ')' :: rest)) = none := by
      rw [show func_name AggFn.maxF ++ '(' :: (E ++ ')' :: rest) =
        'm' :: (['a', 'x'] ++ '(' :: (E ++ ')' :: rest)) from rfl]
      exact tm1_fail_head 's' _ 'm' _ (by decide)
    have h2 : tryMatch1 (func_name .prodF) (func_name .maxF ++ '(' :: (E ++ ')' :: rest)) = none := by
      rw [show func_name AggFn.maxF ++ '(' :: (E ++ ')' :: rest) =
        'm' :: (['a', 'x'] ++ '(' :: (E ++ ')' :: rest)) from rfl]
      exact tm1_fail_head 'p' _ 'm' _ (by decide)
    unfold tryMatch
    rw [h1, h2, tm1_self _ _ _ hE hnp]
  · have h1 : tryMatch1 (func_name .sumF) (func_name .minF ++ '(' :: (E ++ ')' :: rest)) = none := by
      rw [show func_name AggFn.minF ++ '(' :: (E ++ ')' :: rest) =
        'm' :: ('i' :: 'n' :: '(' :: (E ++ ')' :: rest)) from rfl]
      exact tm1_fail_head 's' _ 'm' _ (by decide)
    have h2 : tryMatch1 (func_name .prodF) (func_name .minF ++ '(' :: (E ++ ')' :: rest)) = none := by
      rw [show func_name AggFn.minF ++ '(' :: (E ++ ')' :: rest) =
        'm' :: ('i' :: 'n' :: '(' :: (E ++ ')' :: rest)) from rfl]
      exact tm1_fail_head 'p' _ 'm' _ (by decide)
    have h3 : tryMatch1 (func_name .maxF) (func_name .minF ++ '(' :: (E ++ ')' :: rest)) = none := by
      rw [show func_name AggFn.minF ++ '(' :: (E ++ ')' :: rest) =
        'm' :: ('i' :: ('n' :: '(' :: (E ++ ')' :: rest))) from rfl,
        show func_name AggFn.maxF = 'm' :: 'a' :: ['x'] from rfl]
      exact tm1_fail_snd 'm' 'a' _ 'i' _ (by decide)
    unfold tryMatch
    rw [h1, h2, h3, tm1_self _ _ _ hE hnp]

lemma find_call_cons_some (c : Char) (cs : Str) (k : AggFn) (i r : Str)
    (h : tryMatch (c :: cs) = some (k, i, r)) : find_call (c :: cs) = some ([], k, i, r) := by
  unfold find_call
  rw [h]

lemma find_call_self (k : AggFn) (E rest : Str) (hE : E ≠ [])
    (hnp : ∀ c ∈ E, nonParen c = true) :
    find_call (func_name k ++ '(' :: (E ++ ')' :: rest)) = some ([], k, E, rest) := by
  have h := tryMatch_self k E rest hE hnp
  cases k
  · exact find_call_cons_some 's' ('u' :: 'm' :: '(' :: (E ++ ')' :: rest)) _ _ _ h
  · exact find_call_cons_some 'p' ('r' :: 'o' :: 'd' :: '(' :: (E ++ ')' :: rest)) _ _ _ h
  · exact find_call_cons_some 'm' ('a' :: 'x' :: '(' :: (E ++ ')' :: rest)) _ _ _ h
  · exact find_call_cons_some 'm' ('i' :: 'n' :: '(' :: (E ++ ')' :: rest)) _ _ _ h

lemma replacement_eq_specCombine (k : AggFn) (E : Str) (d : Nat) :
    replacement defaultBuilder k E d = specCombine k d E := by
  cases k <;> rfl

lemma efa_step (b : Builder) (d fuel : Nat) (s pre inner post : Str) (k : AggFn)
    (h : find_call s = some (pre, k, inner, post)) :
    expand_functions_aux b d (fuel + 1) s =
      expand_functions_aux b d fuel (pre ++ '(' :: (replacement b k inner d ++ ')' :: post)) := by
  rw [expand_functions_aux, h]

lemma efa_done (b : Builder) (d fuel : Nat) (s : Str) (h : find_call s = none) :
    expand_functions_aux b d fuel s = .ok s := by
  cases fuel <;> (rw [expand_functions_aux, h])

lemma expand_functions_single_call : ∀ (k : AggFn) (d : Nat) (E : Str), E ≠ [] →
    (∀ c ∈ E, nonParen c = true) →
    find_call ('(' :: (specCombine k d E ++ [')'])) = none →
    expand_functions defaultBuilder (func_name k ++ '(' :: (E ++ [')'])) d =
      .ok ('(' :: (specCombine k d E ++ [')'])) := by
  intro k d E hE hnp hres
  have hfc := find_call_self k E [] hE hnp
  have hpos : 0 < (func_name k ++ '(' :: (E ++ ')' :: ([] : Str))).length := by
    cases k <;> simp
  unfold expand_functions
  rw [show (func_name k ++ '(' :: (E ++ [')'])) = (func_name k ++ '(' :: (E ++ ')' :: [])) from by simp]
  rw [show (func_name k ++ '(' :: (E ++ ')' :: ([] : Str))).length =
      ((func_name k ++ '(' :: (E ++ ')' :: ([] : Str))).length - 1) + 1 from
    (Nat.succ_pred_eq_of_pos hpos).symm]
  rw [efa_step _ _ _ _ _ _ _ _ hfc, replacement_eq_specCombine]
  simp only [List.nil_append]
  exact efa_done _ _ _ _ hres

lemma wm_shift (name : Str) (hn : name ≠ []) (c : Char) (prev : Option Char) (rest : Str)
    (i : Nat) (hw : wordMatchAtFrom name (some c) rest i) :
    wordMatchAtFrom name prev (c :: rest) (i + 1) := by
  obtain ⟨h1, h2, h3⟩ := hw
  have hl : 1 ≤ name.length := by
    cases name with
    | nil => exact absurd rfl hn
    | cons a t => simp
  refine ⟨h1, ?_, ?_⟩
  · rw [if_neg (by omega : ¬ i + 1 = 0)]
    rw [show i + 1 - 1 = i by omega, show (i + 1 : Nat) = i + 1 from rfl]
    rw [List.get?_cons_succ]
    cases i with
    | zero =>
      rw [if_pos rfl] at h2
      simpa using h2
    | succ j =>
      rw [if_neg (by omega : ¬ j + 1 = 0)] at h2
      rw [List.get?_cons_succ]
      simpa using h2
  · rw [show i + 1 + name.length - 1 = (i + name.length - 1) + 1 by omega,
      show i + 1 + name.length = (i + name.length) + 1 by omega,
      List.get?_cons_succ, List.get?_cons_succ]
    exact h3

lemma sub_word_aux_keeps (name val : Str) (hn : name ≠ []) :
    ∀ (fuel : Nat) (s : Str) (prev : Option Char), s.length < fuel →
    (∀ i, i < s.length → ¬ wordMatchAtFrom name prev s i) →
    sub_word_aux name val fuel prev s = s := by
  intro fuel
  induction fuel with
  | zero => intro s prev h; omega
  | succ f ih =>
    intro s prev hlen h
    cases s with
    | nil => rfl
    | cons c rest =>
      have hl : 1 ≤ name.length := by
        cases name with
        | nil => exact absurd rfl hn
        | cons a t => simp
      have hcond : (name.isPrefixOf (c :: rest) && wordBoundary prev (some c)
          && wordBoundary name.getLast? ((c :: rest).drop name.length).head?) = false := by
        rw [← Bool.not_eq_true, Bool.and_eq_true, Bool.and_eq_true]
        rintro ⟨⟨h1, h2⟩, h3⟩
        apply h 0 (by simp)
        have ht' : (c :: rest).take name.length = name := by
          rw [List.isPrefixOf_iff_prefix] at h1
          exact (List.prefix_iff_eq_take.mp h1).symm
        have htake : ((c :: rest).drop 0).take name.length = name := by simpa using ht'
        have hlen_take : ((c :: rest).take name.length).length = name.length := by rw [ht']
        have hA : name.getLast? = (c :: rest).get? (name.length - 1) := by
          conv_lhs => rw [← ht']
          rw [List.getLast?_eq_getElem?, hlen_take, List.getElem?_take,
            if_pos (by omega : name.length - 1 < name.length), List.get?_eq_getElem?]
        have hB : ((c :: rest).drop name.length).head? = (c :: rest).get? name.length := by
          rw [List.head?_eq_getElem?, List.getElem?_drop, List.get?_eq_getElem?]
          norm_num
        refine ⟨htake, by simpa using h2, ?_⟩
        rw [show 0 + name.length - 1 = name.length - 1 by omega,
          show 0 + name.length = name.length by omega, ← hA, ← hB]
        exact h3
      simp only [sub_word_aux, hcond]
      simp only [Bool.false_eq_true, if_false]
      congr 1
      refine ih rest (some c) (by simp at hlen; omega) ?_
      intro i hi hw
      exact h (i + 1) (by simp; omega) (wm_shift name hn c prev rest i hw)

lemma isIndexErr_map (f : Str → Str) (e : Except BuilderErr Str) :
    isIndexErr (f <$> e) = isIndexErr e := by
  cases e with
  | ok s => rfl
  | error err => cases err <;> rfl

lemma rid_aux_iff (d : Nat) (hd : d ≤ 10) :
    ∀ (fuel : Nat) (s : Str), s.length < fuel →
      isIndexErr (replace_indexed_dims_aux defaultBuilder d fuel s) = has_oor_aux d fuel s := by
  intro fuel s
  induction fuel, s using replace_indexed_dims_aux.induct defaultBuilder d with
  | case1 s => intro h; omega
  | case2 n => intro _; rfl
  | case3 fuel rest rest2 hdrop hempty ih =>
    intro hlen
    simp only [replace_indexed_dims_aux, has_oor_aux, hdrop, hempty, if_true]
    rw [isIndexErr_map]
    exact ih (by simp at hlen ⊢; omega)
  | case4 fuel rest rest2 hdrop hempty hge =>
    intro hlen
    simp only [replace_indexed_dims_aux, has_oor_aux, hdrop]
    rw [if_neg hempty, if_neg hempty, if_pos hge, if_pos hge]
    rfl
  | case5 fuel rest rest2 hdrop hempty hge cn hcn ih =>
    intro hlen
    simp only [replace_indexed_dims_aux, has_oor_aux, hdrop]
    rw [if_neg hempty, if_neg hempty, if_neg hge, if_neg hge, hcn]
    rw [isIndexErr_map]
    refine ih ?_
    have hs := (List.dropWhile_sublist (l := rest) (p := Char.isDigit)).length_le
    rw [hdrop] at hs
    simp at hlen hs ⊢
    omega
  | case6 fuel rest rest2 hdrop hempty hge hcn =>
    intro hlen
    exfalso
    rw [List.get?_eq_none] at hcn
    have : natOfDigits (rest.takeWhile Char.isDigit) < d := by omega
    simp [defaultBuilder] at hcn
    omega
  | case7 fuel rest hdrop ih =>
    intro hlen
    have hL : replace_indexed_dims_aux defaultBuilder d (fuel + 1) ('D' :: 'i' :: 'm' :: '[' :: rest)
        = (fun t => 'D' :: t) <$> replace_indexed_dims_aux defaultBuilder d fuel ('i' :: 'm' :: '[' :: rest) := by
      simp only [replace_indexed_dims_aux]
    have hR : has_oor_aux d (fuel + 1) ('D' :: 'i' :: 'm' :: '[' :: rest)
        = has_oor_aux d fuel ('i' :: 'm' :: '[' :: rest) := by
      simp only [has_oor_aux]
    rw [hL, hR, isIndexErr_map]
    exact ih (by simp at hlen ⊢; omega)
  | case8 fuel c rest hne ih =>
    intro hlen
    have hL : replace_indexed_dims_aux defaultBuilder d (fuel + 1) (c :: rest)
        = (fun t => c :: t) <$> replace_indexed_dims_aux defaultBuilder d fuel rest := by
      rw [replace_indexed_dims_aux.eq_def]
      split
      next h => omega
      next h => cases h
      next fuel2 rest1 h1 h2 =>
        injection h2 with hc hrest
        exact (hne rest1 hc hrest).elim
      next fuel2 c2 rest2 hg h1 h2 =>
        injection h2 with hc hrest
        have hf : fuel = fuel2 := by omega
        subst hc
        subst hrest
        subst hf
        rfl
    have hR : has_oor_aux d (fuel + 1) (c :: rest) = has_oor_aux d fuel rest := by
      rw [has_oor_aux.eq_def]
      split
      next h => omega
      next h => cases h
      next fuel2 rest1 h1 h2 =>
        injection h2 with hc hrest
        exact (hne rest1 hc hrest).elim
      next fuel2 c2 rest2 hg h1 h2 =>
        injection h2 with hc hrest
        have hf : fuel = fuel2 := by omega
        subst hc
        subst hrest
        subst hf
        rfl
    rw [hL, hR, isIndexErr_map]
    exact ih (by simp at hlen ⊢; omega)

lemma efa_err_noFuel (b : Builder) (d : Nat) :
    ∀ (fuel : Nat) (s : Str) (e : BuilderErr),
      expand_functions_aux b d fuel s = .error e → e = .noFuel := by
  intro fuel
  induction fuel with
  | zero =>
    intro s e h
    simp only [expand_functions_aux] at h
    split at h
    · cases h
    · cases h; rfl
  | succ f ih =>
    intro s e h
    simp only [expand_functions_aux] at h
    split at h
    · cases h
    · exact ih _ _ h

lemma isIndexErr_expand (b : Builder) (s : Str) (d : Nat) (ps : List (Str × Str)) :
    isIndexErr (expand b s d ps) = isIndexErr (replace_indexed_dims b s d) := by
  unfold expand
  cases hr : replace_indexed_dims b s d with
  | error e => rfl
  | ok t =>
    cases hf : expand_functions b t d with
    | error e2 =>
      have he := efa_err_noFuel b d t.length t e2 hf
      subst he
      simp [Bind.bind, Except.bind, hf]
      rfl
    | ok t2 =>
      simp [Bind.bind, Except.bind, hf]
      rfl

lemma expand_as_passes (b : Builder) (s : Str) (d : Nat) (ps : List (Str × Str)) :
    expand b s d ps = (replace_indexed_dims b s d).bind
      (fun t1 => (expand_functions b t1 d).map (fun t2 => replace_params t2 ps)) := by
  unfold expand
  cases hr : replace_indexed_dims b s d with
  | error e => rfl
  | ok t =>
    cases hf : expand_functions b t d with
    | error e2 => simp [Bind.bind, Except.bind, hf, Except.map]
    | ok t2 =>
      simp [Bind.bind, Except.bind, hf, Except.map]
      rfl

lemma indexed_single (d : Nat) (i : Nat) (hd : d ≤ 10) (hi : i < d) :
    replace_indexed_dims defaultBuilder
      ('D' :: 'i' :: 'm' :: '[' :: Char.ofNat (48 + i) :: ']' :: []) d =
      .ok (defaultBuilder.coord_names.getD i []) := by
  have h10 : i < 10 := by omega
  interval_cases d <;> interval_cases i <;> decide

lemma intercalate_nil_mt (sep : Str) : List.intercalate sep ([] : List Str) = [] := by
  simp [List.intercalate]

lemma intercalate_single (sep a : Str) : List.intercalate sep [a] = a := by
  simp [List.intercalate, List.intersperse]

lemma intercalate_cons2 (sep a b : Str) (l : List Str) :
    List.intercalate sep (a :: b :: l) = a ++ sep ++ List.intercalate sep (b :: l) := by
  simp [List.intercalate, List.intersperse]

lemma tm1_some_shape (name : Str) (s : Str) (i r : Str)
    (h : tryMatch1 name s = some (i, r)) :
    s = name ++ '(' :: (i ++ ')' :: r) ∧ i ≠ [] ∧ (∀ c ∈ i, nonParen c = true) := by
  unfold tryMatch1 at h
  split at h
  next hpre =>
    rw [List.isPrefixOf_iff_prefix] at hpre
    obtain ⟨t, ht⟩ := hpre
    have hdrop : s.drop (name.length + 1) = t := by
      rw [← ht, show name.length + 1 = (name ++ ['(']).length by simp, List.drop_left]
    rw [hdrop] at h
    split at h
    next rest2 hdw =>
      split at h
      next => cases h
      next hne =>
        simp only [Option.some.injEq, Prod.mk.injEq] at h
        obtain ⟨h1, h2⟩ := h
        subst h1
        subst h2
        have ht2 : t = t.takeWhile nonParen ++ ')' :: rest2 := by
          conv_lhs => rw [← List.takeWhile_append_dropWhile nonParen t]
          rw [hdw]
        refine ⟨?_, ?_, fun c hc => List.mem_takeWhile_imp hc⟩
        · rw [← ht]
          conv_lhs => rw [ht2]
          simp
        · intro hempty
          rw [hempty] at hne
          simp at hne
    next => cases h
  next => cases h

lemma tryMatch_some_shape (s : Str) (k : AggFn) (i r : Str)
    (h : tryMatch s = some (k, i, r)) :
    s = func_name k ++ '(' :: (i ++ ')' :: r) ∧ i ≠ [] ∧ (∀ c ∈ i, nonParen c = true) := by
  unfold tryMatch at h
  split at h
  next a b heq =>
    simp only [Option.some.injEq, Prod.mk.injEq] at h
    obtain ⟨h1, h2, h3⟩ := h
    subst h1
    subst h2
    subst h3
    exact tm1_some_shape _ _ _ _ heq
  next =>
    split at h
    next a b heq =>
      simp only [Option.some.injEq, Prod.mk.injEq] at h
      obtain ⟨h1, h2, h3⟩ := h
      subst h1
      subst h2
      subst h3
      exact tm1_some_shape _ _ _ _ heq
    next =>
      split at h
      next a b heq =>
        simp only [Option.some.injEq, Prod.mk.injEq] at h
        obtain ⟨h1, h2, h3⟩ := h
        subst h1
        subst h2
        subst h3
        exact tm1_some_shape _ _ _ _ heq
      next =>
        split at h
        next a b heq =>
          simp only [Option.some.injEq, Prod.mk.injEq] at h
          obtain ⟨h1, h2, h3⟩ := h
          subst h1
          subst h2
          subst h3
          exact tm1_some_shape _ _ _ _ heq
        next => cases h

lemma tryMatch_ne_none_shape (s : Str) (h : tryMatch s ≠ none) :
    ∃ k i r, s = func_name k ++ '(' :: (i ++ ')' :: r) ∧ i ≠ [] ∧
      (∀ c ∈ i, nonParen c = true) := by
  cases hm : tryMatch s with
  | none => exact absurd hm h
  | some x =>
    obtain ⟨k, i, r⟩ := x
    exact ⟨k, i, r, tryMatch_some_shape s k i r hm⟩

lemma find_call_some_shape (s : Str) :
    ∀ (pre : Str) (k : AggFn) (i post : Str),
      find_call s = some (pre, k, i, post) →
      s = pre ++ func_name k ++ '(' :: (i ++ ')' :: post)
      ∧ i ≠ [] ∧ (∀ c ∈ i, nonParen c = true)
      ∧ ∀ j, j < pre.length → tryMatch (s.drop j) = none := by
  induction s with
  | nil => intro pre k i post h; cases h
  | cons c cs ih =>
    intro pre k i post h
    unfold find_call at h
    split at h
    next k0 i0 r0 hm =>
      simp only [Option.some.injEq, Prod.mk.injEq] at h
      obtain ⟨h1, h2, h3, h4⟩ := h
      subst h1
      subst h2
      subst h3
      subst h4
      obtain ⟨hs, hi, hnp⟩ := tryMatch_some_shape _ _ _ _ hm
      refine ⟨by simpa using hs, hi, hnp, ?_⟩
      intro j hj
      simp at hj
    next hm0 =>
      split at h
      next pre1 k1 i1 r1 hrec =>
        simp only [Option.some.injEq, Prod.mk.injEq] at h
        obtain ⟨h1, h2, h3, h4⟩ := h
        subst h1
        subst h2
        subst h3
        subst h4
        obtain ⟨hs, hi, hnp, hleft⟩ := ih _ _ _ _ hrec
        refine ⟨by rw [hs]; simp, hi, hnp, ?_⟩
        intro j hj
        cases j with
        | zero => simpa using hm0
        | succ j2 =>
          rw [List.drop_succ_cons]
          exact hleft j2 (by simpa using hj)
      next => cases h

lemma phi_append_le (u v : Str) : phi v ≤ phi (u ++ v) := by
  induction u with
  | nil => simp
  | cons c u' ih =>
    rw [List.cons_append, phi]
    omega

lemma phi_cons_some (c : Char) (cs : Str) (h : tryMatch (c :: cs) ≠ none) :
    phi (c :: cs) = 1 + phi cs := by
  rw [phi, if_pos (by cases hm : tryMatch (c :: cs) with
    | none => exact absurd hm h
    | some x => simp [hm])]

lemma phi_append_none (B post : Str)
    (h : ∀ j, j < B.length → tryMatch ((B ++ post).drop j) = none) :
    phi (B ++ post) = phi post := by
  induction B with
  | nil => simp
  | cons c B' ih =>
    rw [List.cons_append, phi]
    have h0 : tryMatch (c :: (B' ++ post)) = none := by
      have := h 0 (by simp)
      simpa using this
    rw [if_neg (by simp [h0])]
    have : phi (B' ++ post) = phi post := by
      apply ih
      intro j hj
      have := h (j + 1) (by simp; omega)
      rw [List.cons_append, List.drop_succ_cons] at this
      exact this
    omega

lemma find_call_some_phi_pos (s : Str) (pre : Str) (k : AggFn) (i post : Str)
    (h : find_call s = some (pre, k, i, post)) : 1 + phi post ≤ phi s := by
  obtain ⟨hs, hi, hnp, _⟩ := find_call_some_shape s pre k i post h
  obtain ⟨c0, name2, hname⟩ : ∃ c0 name2, func_name k = c0 :: name2 := by
    cases k
    · exact ⟨'s', ['u', 'm'], rfl⟩
    · exact ⟨'p', ['r', 'o', 'd'], rfl⟩
    · exact ⟨'m', ['a', 'x'], rfl⟩
    · exact ⟨'m', ['i', 'n'], rfl⟩
  have hmm : tryMatch (func_name k ++ '(' :: (i ++ ')' :: post)) ≠ none := by
    rw [tryMatch_self k i post hi hnp]
    simp
  have hform : func_name k ++ '(' :: (i ++ ')' :: post) =
      c0 :: (name2 ++ '(' :: (i ++ ')' :: post)) := by rw [hname]; simp
  have h1 : phi (func_name k ++ '(' :: (i ++ ')' :: post)) =
      1 + phi (name2 ++ '(' :: (i ++ ')' :: post)) := by
    rw [hform] at hmm ⊢
    exact phi_cons_some _ _ hmm
  have h2 : phi post ≤ phi (name2 ++ '(' :: (i ++ ')' :: post)) := by
    rw [show name2 ++ '(' :: (i ++ ')' :: post) = (name2 ++ '(' :: i ++ [')']) ++ post by simp]
    exact phi_append_le _ _
  have h3 : phi (func_name k ++ '(' :: (i ++ ')' :: post)) ≤ phi s := by
    rw [hs, show pre ++ func_name k ++ '(' :: (i ++ ')' :: post) =
      pre ++ (func_name k ++ '(' :: (i ++ ')' :: post)) by simp]
    exact phi_append_le _ _
  omega

lemma func_name_ne_nil (k : AggFn) : func_name k ≠ [] := by cases k <;> decide

lemma func_name_head (k : AggFn) :
    ∃ c t, func_name k = c :: t ∧ (c = 's' ∨ c = 'p' ∨ c = 'm') := by
  cases k
  · exact ⟨'s', ['u', 'm'], rfl, Or.inl rfl⟩
  · exact ⟨'p', ['r', 'o', 'd'], rfl, Or.inr (Or.inl rfl)⟩
  · exact ⟨'m', ['a', 'x'], rfl, Or.inr (Or.inr rfl)⟩
  · exact ⟨'m', ['i', 'n'], rfl, Or.inr (Or.inr rfl)⟩

lemma rparen_not_mem_func_name (k : AggFn) : ')' ∉ func_name k := by cases k <;> decide

/-- No macro name directly followed by an opening parenthesis occurs
anywhere in an intercalation of parenthesis-wrapped parenthesis-free
pieces by a separator free of macro-name head characters. -/
lemma no_call_in_wrap_join (sep : Str)
    (hsep : ∀ c ∈ sep, ¬(c = 's' ∨ c = 'p' ∨ c = 'm')) :
    ∀ (ts : List Str), (∀ t ∈ ts, ∀ c ∈ t, nonParen c = true) →
    ∀ (a b : Str) (k : AggFn),
      List.intercalate sep (ts.map (fun t => '(' :: (t ++ [')']))) ≠
        a ++ func_name k ++ '(' :: b := by
  intro ts
  induction ts with
  | nil =>
    intro _ a b k h
    rw [List.map_nil, intercalate_nil_mt] at h
    have hlen := congrArg List.length h
    obtain ⟨n0, N2, hN, _⟩ := func_name_head k
    rw [hN] at hlen
    simp [List.length_append] at hlen
    omega
  | cons t ts2 ih =>
    intro hts a b k h
    obtain ⟨n0, N2, hN, hh⟩ := func_name_head k
    have ht : ∀ c ∈ t, nonParen c = true := hts t (by simp)
    have hshape : ∃ R, List.intercalate sep ((t :: ts2).map (fun t => '(' :: (t ++ [')']))) =
        ('(' :: (t ++ [')'])) ++ R ∧
        (R = [] ∨ ∃ c1, R = sep ++ c1 ∧
          c1 = List.intercalate sep (ts2.map (fun t => '(' :: (t ++ [')'])))) := by
      cases ts2 with
      | nil =>
        refine ⟨[], ?_, Or.inl rfl⟩
        rw [List.map_cons, List.map_nil, intercalate_single]
        simp
      | cons t2 ts3 =>
        refine ⟨sep ++ List.intercalate sep ((t2 :: ts3).map (fun t => '(' :: (t ++ [')']))), ?_,
          Or.inr ⟨_, rfl, rfl⟩⟩
        rw [List.map_cons, List.map_cons, intercalate_cons2]
        simp
    obtain ⟨R, hform, hR⟩ := hshape
    rw [hform] at h
    -- h : ('(' :: (t ++ [')'])) ++ R = a ++ func_name k ++ '(' :: b
    cases a with
    | nil =>
      rw [List.nil_append, hN, List.cons_append, List.cons_append] at h
      injection h with h1 _
      rcases hh with rfl | rfl | rfl <;> exact absurd h1 (by decide)
    | cons a0 a2 =>
      rw [show (('(' :: (t ++ [')'])) ++ R : Str) = '(' :: (t ++ ')' :: R) from by simp,
        List.cons_append] at h
      injection h with h0 h2
      subst h0
      simp only [List.append_eq] at h2
      rw [show (a2 ++ func_name k ++ '(' :: b : Str) = a2 ++ (func_name k ++ '(' :: b) from by
        simp] at h2
      rcases List.append_eq_append_iff.mp h2 with ⟨w, hw1, hw2⟩ | ⟨w, hw1, hw2⟩
      · -- a2 = t ++ w and ')' :: R = w ++ (func_name k ++ '(' :: b)
        cases w with
        | nil =>
          rw [List.nil_append, hN, List.cons_append] at hw2
          injection hw2 with h1 _
          rcases hh with rfl | rfl | rfl <;> exact absurd h1 (by decide)
        | cons w0 w2 =>
          rw [List.cons_append] at hw2
          injection hw2 with h1 h3
          subst h1
          -- R = w2 ++ (func_name k ++ '(' :: b)
          rcases hR with rfl | ⟨c1, rfl, hc1⟩
          · have hlen := congrArg List.length h3
            rw [hN] at hlen
            simp [List.length_append] at hlen
            omega
          · -- sep ++ c1 = w2 ++ (func_name k ++ '(' :: b)
            rcases List.append_eq_append_iff.mp h3.symm with ⟨u, hu1, hu2⟩ | ⟨u, hu1, hu2⟩
            · -- sep = w2 ++ u and func_name k ++ '(' :: b = u ++ c1
              cases u with
              | nil =>
                rw [List.nil_append] at hu2
                refine ih (fun t2 ht2 => hts t2 (by simp [ht2])) [] b k ?_
                rw [← hc1, ← hu2]
                simp
              | cons u0 u2 =>
                have hu0 : u0 ∈ sep := by rw [hu1]; simp
                rw [hN, List.cons_append, List.cons_append] at hu2
                injection hu2 with h1 _
                exact hsep u0 hu0 (by rw [h1] at hh; exact hh)
            · -- w2 = sep ++ u and c1 = u ++ (func_name k ++ '(' :: b)
              refine ih (fun t2 ht2 => hts t2 (by simp [ht2])) u b k ?_
              rw [← hc1, hu2]
              simp
      · -- t = a2 ++ w and func_name k ++ '(' :: b = w ++ ')' :: R
        rcases List.append_eq_append_iff.mp hw2 with ⟨v, hv1, hv2⟩ | ⟨v, hv1, hv2⟩
        · -- w = func_name k ++ v and '(' :: b = v ++ ')' :: R
          cases v with
          | nil => injection hv2 with h1 _; exact absurd h1 (by decide)
          | cons v0 v2 =>
            injection hv2 with h1 _
            subst h1
            have : '(' ∈ t := by
              rw [hv1] at hw1
              rw [hw1]
              simp
            have := ht '(' this
            exact absurd this (by decide)
        · -- func_name k = w ++ v and v ++ '(' :: b = ')' :: R
          cases v with
          | nil => injection hv2 with h1 _; exact absurd h1 (by decide)
          | cons v0 v2 =>
            injection hv2 with h1 _
            subst h1
            have : ')' ∈ func_name k := by rw [hv1]; simp
            exact rparen_not_mem_func_name k this

lemma no_lparen_intercalate (sep : Str) (hs : '(' ∉ sep) :
    ∀ (ts : List Str), (∀ t ∈ ts, ∀ c ∈ t, nonParen c = true) →
    '(' ∉ List.intercalate sep ts := by
  intro ts
  induction ts with
  | nil => intro _; rw [intercalate_nil_mt]; simp
  | cons t ts2 ih =>
    intro hts hmem
    cases ts2 with
    | nil =>
      rw [intercalate_single] at hmem
      exact absurd (hts t (by simp) '(' hmem) (by decide)
    | cons t2 ts3 =>
      rw [intercalate_cons2] at hmem
      rcases List.mem_append.mp hmem with hm1 | hm2
      · rcases List.mem_append.mp hm1 with hA | hB
        · exact absurd (hts t (by simp) '(' hA) (by decide)
        · exact hs hB
      · exact ih (fun u hu => hts u (by simp [hu])) hm2

lemma replaceAll_aux_mem (pat rep : Str) :
    ∀ (fuel : Nat) (s : Str) (c : Char), c ∈ replaceAll_aux pat rep fuel s → c ∈ s ∨ c ∈ rep := by
  intro fuel
  induction fuel with
  | zero => intro s c h; exact Or.inl h
  | succ f ih =>
    intro s c h
    cases s with
    | nil => cases h
    | cons a rest =>
      simp only [replaceAll_aux] at h
      split at h
      · rcases List.mem_append.mp h with h1 | h2
        · exact Or.inr h1
        · rcases ih _ c h2 with h3 | h4
          · exact Or.inl (List.mem_of_mem_drop h3)
          · exact Or.inr h4
      · rcases List.mem_cons.mp h with rfl | h2
        · exact Or.inl (by simp)
        · rcases ih _ c h2 with h3 | h4
          · exact Or.inl (by simp [h3])
          · exact Or.inr h4

lemma terms_of_nonParen (i : Str) (d : Nat) (hnp : ∀ c ∈ i, nonParen c = true) :
    ∀ t ∈ terms_of defaultBuilder i d, ∀ c ∈ t, nonParen c = true := by
  intro t ht c hc
  obtain ⟨cn, hcn, rfl⟩ := List.mem_map.mp ht
  rcases replaceAll_aux_mem _ _ _ _ _ hc with h1 | h2
  · exact hnp c h1
  · have hcn2 := List.mem_of_mem_take hcn
    have hall : ∀ cn ∈ defaultBuilder.coord_names, ∀ c ∈ cn, nonParen c = true := by decide
    exact hall cn hcn2 c h2

lemma hdr4_no_call (c1 c2 c3 : Char) (RR : Str)
    (h1 : ¬(c1 = 's' ∨ c1 = 'p' ∨ c1 = 'm'))
    (h2 : ¬(c2 = 's' ∨ c2 = 'p' ∨ c2 = 'm'))
    (h3 : ¬(c3 = 's' ∨ c3 = 'p' ∨ c3 = 'm'))
    (hR : '(' ∉ RR) :
    ∀ (a b : Str) (k : AggFn),
      (c1 :: c2 :: c3 :: '(' :: RR : Str) ≠ a ++ func_name k ++ '(' :: b := by
  intro a b k h
  obtain ⟨n0, N2, hN, hh⟩ := func_name_head k
  rw [hN] at h
  have hstep : ∀ (x : Char) (xs : Str) (a2 : Str),
      (x :: xs : Str) = a2 ++ (n0 :: N2 ++ '(' :: b) →
      (a2 = [] → x = n0) ∧ (∀ a0 a3, a2 = a0 :: a3 → x = a0 ∧ xs = a3 ++ (n0 :: N2 ++ '(' :: b)) := by
    intro x xs a2 heq
    constructor
    · rintro rfl
      rw [List.nil_append] at heq
      injection heq with hx _
    · rintro a0 a3 rfl
      rw [List.cons_append] at heq
      injection heq with hx hxs
      exact ⟨hx, hxs⟩
  rw [show (a ++ (n0 :: N2) ++ '(' :: b : Str) = a ++ (n0 :: N2 ++ '(' :: b) from by simp] at h
  cases a with
  | nil =>
    obtain ⟨he, _⟩ := hstep _ _ _ h
    exact h1 (by rw [he rfl]; exact hh)
  | cons a0 a2 =>
    obtain ⟨_, hc⟩ := hstep _ _ _ h
    obtain ⟨_, h⟩ := hc a0 a2 rfl
    cases a2 with
    | nil =>
      obtain ⟨he, _⟩ := hstep _ _ _ h
      exact h2 (by rw [he rfl]; exact hh)
    | cons a0 a3 =>
      obtain ⟨_, hc⟩ := hstep _ _ _ h
      obtain ⟨_, h⟩ := hc a0 a3 rfl
      cases a3 with
      | nil =>
        obtain ⟨he, _⟩ := hstep _ _ _ h
        exact h3 (by rw [he rfl]; exact hh)
      | cons a0' a4 =>
        obtain ⟨_, hc⟩ := hstep _ _ _ h
        obtain ⟨_, h⟩ := hc a0' a4 rfl
        cases a4 with
        | nil =>
          obtain ⟨he, _⟩ := hstep _ _ _ h
          have : ('(' : Char) = n0 := he rfl
          rcases hh with rfl | rfl | rfl <;> exact absurd this (by decide)
        | cons a0'' a5 =>
          obtain ⟨_, hc⟩ := hstep _ _ _ h
          obtain ⟨_, h⟩ := hc a0'' a5 rfl
          apply hR
          rw [h]
          simp

lemma replacement_no_call (k : AggFn) (i : Str) (hnp : ∀ c ∈ i, nonParen c = true) (d : Nat) :
    ∀ (a b : Str) (k2 : AggFn),
      replacement defaultBuilder k i d ≠ a ++ func_name k2 ++ '(' :: b := by
  have hterms := terms_of_nonParen i d hnp
  cases k
  · exact no_call_in_wrap_join (strOf " + ") (by decide) _ hterms
  · exact no_call_in_wrap_join (strOf " * ") (by decide) _ hterms
  · intro a b k2
    rw [show replacement defaultBuilder .maxF i d =
      'M' :: 'a' :: 'x' :: '(' :: (List.intercalate (strOf ", ") (terms_of defaultBuilder i d)
        ++ [')']) from by simp [replacement, strOf]]
    apply hdr4_no_call _ _ _ _ (by decide) (by decide) (by decide)
    intro hmem
    rcases List.mem_append.mp hmem with hm1 | hm2
    · exact no_lparen_intercalate (strOf ", ") (by decide) _ hterms hm1
    · simp at hm2
  · intro a b k2
    rw [show replacement defaultBuilder .minF i d =
      'M' :: 'i' :: 'n' :: '(' :: (List.intercalate (strOf ", ") (terms_of defaultBuilder i d)
        ++ [')']) from by simp [replacement, strOf]]
    apply hdr4_no_call _ _ _ _ (by decide) (by decide) (by decide)
    intro hmem
    rcases List.mem_append.mp hmem with hm1 | hm2
    · exact no_lparen_intercalate (strOf ", ") (by decide) _ hterms hm1
    · simp at hm2

lemma take_coords_cons (d : Nat) (hd : 1 ≤ d) :
    defaultBuilder.coord_names.take d =
      strOf "x" :: (defaultBuilder.coord_names.drop 1).take (d - 1) := by
  obtain ⟨d2, rfl⟩ : ∃ d2, d = d2 + 1 := ⟨d - 1, by omega⟩
  rfl

lemma intercalate_head (sep w : Str) (ws : List Str) :
    ∃ z, List.intercalate sep (w :: ws) = w ++ z := by
  cases ws with
  | nil => exact ⟨[], by rw [intercalate_single]; simp⟩
  | cons b l => exact ⟨sep ++ List.intercalate sep (b :: l), by rw [intercalate_cons2]; simp⟩

lemma lparen_not_mem_func_name (k : AggFn) : '(' ∉ func_name k := by cases k <;> decide

lemma core_shape (k : AggFn) (i : Str) (d : Nat) (hd : 1 ≤ d) :
    (∃ z, replacement defaultBuilder k i d = '(' :: z)
    ∨ (∃ c1 c2 c3 z, replacement defaultBuilder k i d = c1 :: c2 :: c3 :: '(' :: z
        ∧ c1 ≠ ')' ∧ c2 ≠ ')' ∧ c3 ≠ ')') := by
  have hterms : terms_of defaultBuilder i d =
      replaceAll i (strOf "Dim") (strOf "x") ::
        ((defaultBuilder.coord_names.drop 1).take (d - 1)).map
          (fun cn => replaceAll i (strOf "Dim") cn) := by
    unfold terms_of
    rw [take_coords_cons d hd, List.map_cons]
  cases k
  · left
    rw [show replacement defaultBuilder .sumF i d = List.intercalate (strOf " + ")
        ((terms_of defaultBuilder i d).map (fun t => '(' :: (t ++ [')']))) from rfl, hterms,
      List.map_cons]
    obtain ⟨z, hz⟩ := intercalate_head (strOf " + ") _ _
    rw [hz]
    exact ⟨_, rfl⟩
  · left
    rw [show replacement defaultBuilder .prodF i d = List.intercalate (strOf " * ")
        ((terms_of defaultBuilder i d).map (fun t => '(' :: (t ++ [')']))) from rfl, hterms,
      List.map_cons]
    obtain ⟨z, hz⟩ := intercalate_head (strOf " * ") _ _
    rw [hz]
    exact ⟨_, rfl⟩
  · right
    exact ⟨'M', 'a', 'x', List.intercalate (strOf ", ") (terms_of defaultBuilder i d) ++ [')'],
      rfl, by decide, by decide, by decide⟩
  · right
    exact ⟨'M', 'i', 'n', List.intercalate (strOf ", ") (terms_of defaultBuilder i d) ++ [')'],
      rfl, by decide, by decide, by decide⟩

lemma no_inner_eq_wrap (z post i2 r2 : Str) (hi : i2 ≠ [])
    (hnp : ∀ c ∈ i2, nonParen c = true)
    (h : (('(' :: z : Str) ++ ')' :: post) = i2 ++ ')' :: r2) : False := by
  cases i2 with
  | nil => exact hi rfl
  | cons x i3 =>
    rw [List.cons_append, List.cons_append] at h
    injection h with h1 _
    exact absurd (hnp x (by simp)) (by rw [← h1]; decide)

lemma no_inner_eq_hdr (c1 c2 c3 : Char) (z post i2 r2 : Str)
    (hc2 : c2 ≠ ')') (hc3 : c3 ≠ ')')
    (hi : i2 ≠ []) (hnp : ∀ c ∈ i2, nonParen c = true)
    (h : ((c1 :: c2 :: c3 :: '(' :: z : Str) ++ ')' :: post) = i2 ++ ')' :: r2) : False := by
  cases i2 with
  | nil => exact hi rfl
  | cons x1 i3 =>
    rw [List.cons_append, List.cons_append] at h
    injection h with _ h
    simp only [List.append_eq] at h
    cases i3 with
    | nil =>
      rw [List.nil_append] at h
      injection h with h1 _
      exact hc2 h1
    | cons x2 i4 =>
      rw [List.cons_append] at h
      injection h with _ h
      simp only [List.append_eq] at h
      cases i4 with
      | nil =>
        rw [List.nil_append] at h
        injection h with h1 _
        exact hc3 h1
      | cons x3 i5 =>
        rw [List.cons_append] at h
        injection h with _ h
        simp only [List.append_eq] at h
        cases i5 with
        | nil =>
          rw [List.nil_append] at h
          injection h with h1 _
          exact absurd h1 (by decide)
        | cons x4 i6 =>
          rw [List.cons_append] at h
          injection h with h1 _
          exact absurd (hnp x4 (by simp)) (by rw [← h1]; decide)

lemma tryMatch_none_of_head (c : Char) (hc : ¬(c = 's' ∨ c = 'p' ∨ c = 'm')) (w : Str) :
    tryMatch (c :: w) = none := by
  cases hm : tryMatch (c :: w) with
  | none => rfl
  | some x =>
    exfalso
    obtain ⟨k2, i2, r2⟩ := x
    obtain ⟨hs, _, _⟩ := tryMatch_some_shape _ _ _ _ hm
    obtain ⟨n0, N2, hN, hh⟩ := func_name_head k2
    rw [hN, List.cons_append] at hs
    injection hs with h1 _
    exact hc (by rw [h1]; exact hh)

/-- After one loop step the spliced-in text contains no matchable macro
call anywhere in the replaced prefix: the characters before the match
still match nothing (the original leftmost match is gone), the wrap
parenthesis and replacement core start no macro name, and the core
itself contains no macro-name-plus-parenthesis substring. -/
lemma step_no_match (d : Nat) (hd : 1 ≤ d) (s pre i post : Str) (k : AggFn)
    (hfc : find_call s = some (pre, k, i, post)) :
    ∀ j, j < (pre ++ '(' :: (replacement defaultBuilder k i d ++ [')'])).length →
      tryMatch (((pre ++ '(' :: (replacement defaultBuilder k i d ++ [')'])) ++ post).drop j)
        = none := by
  obtain ⟨hs, hi, hnp, hleft⟩ := find_call_some_shape s pre k i post hfc
  intro j hj
  by_contra hne
  obtain ⟨k2, i2, r2, hshape, hi2, hnp2⟩ := tryMatch_ne_none_shape _ hne
  have hj' : j < pre.length + (replacement defaultBuilder k i d).length + 2 := by
    have h0 := hj
    simp [List.length_append] at h0
    omega
  rcases lt_trichotomy j pre.length with hA | hBeq | hC
  · -- j strictly inside the prefix pre
    have hdropt : ((pre ++ '(' :: (replacement defaultBuilder k i d ++ [')'])) ++ post).drop j
        = pre.drop j ++ '(' :: (replacement defaultBuilder k i d ++ ')' :: post) := by
      rw [show (pre ++ '(' :: (replacement defaultBuilder k i d ++ [')'])) ++ post
          = pre ++ '(' :: (replacement defaultBuilder k i d ++ ')' :: post) from by simp,
        List.drop_append_of_le_length (le_of_lt hA)]
    rw [hdropt] at hshape
    have hsd : s.drop j = pre.drop j ++ (func_name k ++ '(' :: (i ++ ')' :: post)) := by
      rw [hs, show pre ++ func_name k ++ '(' :: (i ++ ')' :: post)
          = pre ++ (func_name k ++ '(' :: (i ++ ')' :: post)) from by simp,
        List.drop_append_of_le_length (le_of_lt hA)]
    have hleftj := hleft j hA
    have inP : ∀ (R : Str), pre.drop j = func_name k2 ++ '(' :: (i2 ++ ')' :: R) → False := by
      intro R hP
      have hcomp : tryMatch (s.drop j)
          = some (k2, i2, R ++ (func_name k ++ '(' :: (i ++ ')' :: post))) := by
        rw [hsd, hP, show (func_name k2 ++ '(' :: (i2 ++ ')' :: R))
              ++ (func_name k ++ '(' :: (i ++ ')' :: post))
            = func_name k2 ++ '(' :: (i2 ++ ')' ::
              (R ++ (func_name k ++ '(' :: (i ++ ')' :: post)))) from by simp]
        exact tryMatch_self k2 i2 _ hi2 hnp2
      rw [hleftj] at hcomp
      cases hcomp
    have coreContra : ∀ (r3 : Str),
        replacement defaultBuilder k i d ++ ')' :: post = i2 ++ ')' :: r3 → False := by
      intro r3 hXeq
      rcases core_shape k i d hd with ⟨z, hz⟩ | ⟨c1, c2, c3, z, hz, _, hb2, hb3⟩
      · rw [hz] at hXeq
        exact no_inner_eq_wrap z post i2 r3 hi2 hnp2 hXeq
      · rw [hz] at hXeq
        exact no_inner_eq_hdr c1 c2 c3 z post i2 r3 hb2 hb3 hi2 hnp2 hXeq
    have heq : (pre.drop j ++ ['(']) ++ (replacement defaultBuilder k i d ++ ')' :: post)
        = (func_name k2 ++ ['(']) ++ (i2 ++ ')' :: r2) := by
      rw [show (pre.drop j ++ ['(']) ++ (replacement defaultBuilder k i d ++ ')' :: post)
          = pre.drop j ++ '(' :: (replacement defaultBuilder k i d ++ ')' :: post) from by simp,
        show (func_name k2 ++ ['(']) ++ (i2 ++ ')' :: r2)
          = func_name k2 ++ '(' :: (i2 ++ ')' :: r2) from by simp]
      exact hshape
    rcases List.append_eq_append_iff.mp heq with ⟨w, hw1, hw2⟩ | ⟨w, hw1, hw2⟩
    · -- the matched name+paren covers the whole segment pre.drop j ++ '('
      cases w with
      | nil =>
        rw [List.nil_append] at hw2
        exact coreContra r2 hw2
      | cons w0 w2 =>
        have hmem : '(' ∈ func_name k2 := by
          rcases List.append_eq_append_iff.mp hw1.symm with ⟨v, hv1, hv2⟩ | ⟨v, hv1, hv2⟩
          · rw [hv1]
            simp
          · cases v with
            | nil =>
              rw [List.append_nil] at hv1
              rw [← hv1]
              simp
            | cons v0 v2 =>
              rw [List.cons_append] at hv2
              injection hv2 with _ h4
              exact absurd (List.append_eq_nil.mp h4.symm).2 (by simp)
        exact lparen_not_mem_func_name k2 hmem
    · -- the matched name+paren sits inside pre.drop j ++ '('
      cases w with
      | nil =>
        rw [List.nil_append] at hw2
        exact coreContra r2 hw2.symm
      | cons w0 w2 =>
        have hw1' : pre.drop j ++ ['('] = func_name k2 ++ '(' :: w0 :: w2 := by
          rw [hw1]
          simp
        rcases List.append_eq_append_iff.mp hw2 with ⟨u, hu1, hu2⟩ | ⟨u, hu1, hu2⟩
        · -- the captured argument i2 ends inside w0 :: w2
          cases u with
          | nil =>
            rw [List.nil_append] at hu2
            rcases core_shape k i d hd with ⟨z, hz⟩ | ⟨c1, c2, c3, z, hz, hb1, _, _⟩
            · rw [hz, List.cons_append] at hu2
              injection hu2 with h1 _
              exact absurd h1 (by decide)
            · rw [hz, List.cons_append] at hu2
              injection hu2 with h1 _
              exact hb1 h1.symm
          | cons u0 u2 =>
            rw [List.cons_append] at hu2
            injection hu2 with h1 _
            rw [← h1] at hu1
            have hM : pre.drop j ++ ['(']
                = (func_name k2 ++ '(' :: (i2 ++ [')'])) ++ u2 := by
              rw [hw1', hu1]
              simp
            rcases List.append_eq_append_iff.mp hM with ⟨v, hv1, hv2⟩ | ⟨v, hv1, hv2⟩
            · cases v with
              | nil =>
                rw [List.append_nil] at hv1
                exact inP [] hv1.symm
              | cons v0 v2 =>
                rw [List.cons_append] at hv2
                injection hv2 with h3 h4
                obtain ⟨rfl, rfl⟩ := List.append_eq_nil.mp h4.symm
                rw [← h3] at hv1
                have hL : (func_name k2 ++ '(' :: (i2 ++ [')'])).getLast? = some ')' := by
                  rw [show func_name k2 ++ '(' :: (i2 ++ [')'])
                      = (func_name k2 ++ '(' :: i2) ++ [')'] from by simp]
                  exact List.getLast?_concat _
                rw [hv1, List.getLast?_concat] at hL
                exact absurd hL (by decide)
            · exact inP v (by rw [hv1]; simp)
        · -- the captured argument i2 extends past w0 :: w2
          have hgl : (w0 :: w2).getLast? = some '(' := by
            have h1 : (pre.drop j ++ ['(']).getLast? = some '(' := List.getLast?_concat _
            rw [hw1', List.getLast?_append_cons] at h1
            exact h1
          have hmem : '(' ∈ i2 := by
            rw [hu1]
            exact List.mem_append_left _ (List.mem_of_mem_getLast? hgl)
          exact absurd (hnp2 '(' hmem) (by decide)
  · -- j points at the inserted wrap parenthesis
    have hdropt : ((pre ++ '(' :: (replacement defaultBuilder k i d ++ [')'])) ++ post).drop j
        = '(' :: (replacement defaultBuilder k i d ++ ')' :: post) := by
      rw [hBeq, show (pre ++ '(' :: (replacement defaultBuilder k i d ++ [')'])) ++ post
          = pre ++ '(' :: (replacement defaultBuilder k i d ++ ')' :: post) from by simp,
        List.drop_left]
    rw [hdropt] at hshape
    obtain ⟨n0, N2, hN, hh⟩ := func_name_head k2
    rw [hN, List.cons_append] at hshape
    injection hshape with h1 _
    rcases hh with rfl | rfl | rfl <;> exact absurd h1 (by decide)
  · -- j points inside the replacement core or at its closing parenthesis
    obtain ⟨j2, hj2⟩ : ∃ j2, j = pre.length + 1 + j2 := ⟨j - pre.length - 1, by omega⟩
    have hj2le : j2 ≤ (replacement defaultBuilder k i d).length := by omega
    have hdropA : ((pre ++ '(' :: (replacement defaultBuilder k i d ++ [')'])) ++ post).drop j
        = (replacement defaultBuilder k i d ++ ')' :: post).drop j2 := by
      rw [show (pre ++ '(' :: (replacement defaultBuilder k i d ++ [')'])) ++ post
          = (pre ++ ['(']) ++ (replacement defaultBuilder k i d ++ ')' :: post) from by simp,
        show j = (pre ++ ['(']).length + j2 from by simp [List.length_append]; omega,
        List.drop_append]
    rcases Nat.lt_or_ge j2 (replacement defaultBuilder k i d).length with hj2lt | hj2ge
    · have hdropB : (replacement defaultBuilder k i d ++ ')' :: post).drop j2
          = (replacement defaultBuilder k i d).drop j2 ++ ')' :: post := by
        rw [List.drop_append_of_le_length (le_of_lt hj2lt)]
      rw [hdropA, hdropB] at hshape
      have heq2 : (replacement defaultBuilder k i d).drop j2 ++ ')' :: post
          = (func_name k2 ++ ['(']) ++ (i2 ++ ')' :: r2) := by
        rw [hshape]
        simp
      rcases List.append_eq_append_iff.mp heq2 with ⟨w, hw1, hw2⟩ | ⟨w, hw1, hw2⟩
      · cases w with
        | nil =>
          rw [List.nil_append] at hw2
          cases i2 with
          | nil => exact hi2 rfl
          | cons x i3 =>
            rw [List.cons_append] at hw2
            injection hw2 with h1 _
            exact absurd (hnp2 x (by simp)) (by rw [← h1]; decide)
        | cons w0 w2 =>
          rw [List.cons_append] at hw2
          injection hw2 with h1 _
          rw [← h1] at hw1
          have hrp : (')' : Char) ∈ func_name k2 ++ ['('] := by
            rw [hw1]
            simp
          rcases List.mem_append.mp hrp with hm | hm
          · exact rparen_not_mem_func_name k2 hm
          · simp at hm
      · exact replacement_no_call k i hnp d ((replacement defaultBuilder k i d).take j2) w k2
          (by conv_lhs => rw [← List.take_append_drop j2 (replacement defaultBuilder k i d)]
              rw [hw1]
              simp)
    · have hj2eq : j2 = (replacement defaultBuilder k i d).length := le_antisymm hj2le hj2ge
      have hdropB : (replacement defaultBuilder k i d ++ ')' :: post).drop j2 = ')' :: post := by
        rw [hj2eq, List.drop_left]
      rw [hdropA, hdropB] at hshape
      obtain ⟨n0, N2, hN, hh⟩ := func_name_head k2
      rw [hN, List.cons_append] at hshape
      injection hshape with h1 _
      rcases hh with rfl | rfl | rfl <;> exact absurd h1 (by decide)

/-- One step of the `while True` loop strictly decreases the number of
matchable positions: the leftmost match is removed and the inserted text
matches nowhere. -/
lemma step_phi_lt (d : Nat) (hd : 1 ≤ d) (s pre i post : Str) (k : AggFn)
    (hfc : find_call s = some (pre, k, i, post)) :
    phi (pre ++ '(' :: (replacement defaultBuilder k i d ++ ')' :: post)) < phi s := by
  have h1 : phi (pre ++ '(' :: (replacement defaultBuilder k i d ++ ')' :: post)) = phi post := by
    rw [show pre ++ '(' :: (replacement defaultBuilder k i d ++ ')' :: post)
        = (pre ++ '(' :: (replacement defaultBuilder k i d ++ [')'])) ++ post from by simp]
    exact phi_append_none _ _ (step_no_match d hd s pre i post k hfc)
  have h2 : phi post ≤ phi post := le_refl _
  have h3 := find_call_some_phi_pos s pre k i post hfc
  omega

lemma efa_mono (d : Nat) :
    ∀ (n : Nat) (s : Str) (r : Str), expand_functions_aux defaultBuilder d n s = .ok r →
      ∀ m, n ≤ m → expand_functions_aux defaultBuilder d m s = .ok r := by
  intro n
  induction n with
  | zero =>
    intro s r h m _
    unfold expand_functions_aux at h
    cases hfc : find_call s with
    | none =>
      rw [hfc] at h
      cases m with
      | zero => simp only [expand_functions_aux, hfc]; exact h
      | succ m2 => simp only [expand_functions_aux, hfc]; exact h
    | some x =>
      rw [hfc] at h
      cases h
  | succ n ih =>
    intro s r h m hm
    simp only [expand_functions_aux] at h
    cases hfc : find_call s with
    | none =>
      rw [hfc] at h
      cases m with
      | zero => simp only [expand_functions_aux, hfc]; exact h
      | succ m2 => simp only [expand_functions_aux, hfc]; exact h
    | some x =>
      obtain ⟨pre, k, i, post⟩ := x
      rw [hfc] at h
      cases m with
      | zero => omega
      | succ m2 =>
        simp only [expand_functions_aux, hfc]
        exact ih _ _ h m2 (by omega)

lemma efa_ok_of_phi (d : Nat) (hd : 1 ≤ d) :
    ∀ (n : Nat) (s : Str), phi s ≤ n →
      ∃ r, expand_functions_aux defaultBuilder d n s = .ok r := by
  intro n
  induction n with
  | zero =>
    intro s hphi
    cases hfc : find_call s with
    | none => exact ⟨s, by simp only [expand_functions_aux, hfc]⟩
    | some x =>
      obtain ⟨pre, k, i, post⟩ := x
      have := find_call_some_phi_pos s pre k i post hfc
      omega
  | succ n ih =>
    intro s hphi
    cases hfc : find_call s with
    | none => exact ⟨s, by simp only [expand_functions_aux, hfc]⟩
    | some x =>
      obtain ⟨pre, k, i, post⟩ := x
      have hlt := step_phi_lt d hd s pre i post k hfc
      obtain ⟨r, hr⟩ :=
        ih (pre ++ '(' :: (replacement defaultBuilder k i d ++ ')' :: post)) (by omega)
      exact ⟨r, by simp only [expand_functions_aux, hfc]; exact hr⟩

lemma phi_le_length (s : Str) : phi s ≤ s.length := by
  induction s with
  | nil => simp [phi]
  | cons c cs ih =>
    rw [phi, List.length_cons]
    split
    · omega
    · omega

lemma isCallStart_of_tryMatch (s : Str) (h : (tryMatch s).isSome = true) :
    isCallStart s = true := by
  obtain ⟨x, hx⟩ := Option.isSome_iff_exists.mp h
  obtain ⟨k, i, r⟩ := x
  obtain ⟨hs, _, _⟩ := tryMatch_some_shape s k i r hx
  have hpre : (func_name k ++ ['(']).isPrefixOf s = true := by
    rw [List.isPrefixOf_iff_prefix, hs]
    exact ⟨i ++ ')' :: r, by simp⟩
  cases k <;> simp [isCallStart, hpre]

lemma phi_le_call_occurrences (s : Str) : phi s ≤ call_occurrences s := by
  induction s with
  | nil => simp [phi, call_occurrences]
  | cons c cs ih =>
    rw [phi, call_occurrences]
    rcases hm : (tryMatch (c :: cs)).isSome with hff | htt
    · rw [if_neg (by simp)]
      omega
    · rw [if_pos rfl, if_pos (isCallStart_of_tryMatch _ hm)]
      omega

lemma call_occurrences_le_length (s : Str) : call_occurrences s ≤ s.length := by
  induction s with
  | nil => simp [call_occurrences]
  | cons c cs ih =>
    rw [call_occurrences, List.length_cons]
    split
    · omega
    · omega

lemma tok_eval_c3a1 : tokenize (strOf "((x^2) + (y^2)) = 25") = some tokC3a1 := rfl

lemma tok_eval_c3a2 : tokenize (strOf "x**2 + y**2 = 25") = some tokC3a2 := rfl

lemma tok_eval_c3b1 : tokenize (strOf "((x^2) + (y^2) + (z^2)) = 25") = some tokC3b1 := rfl

lemma tok_eval_c3b2 : tokenize (strOf "x**2 + y**2 + z**2 = 25") = some tokC3b2 := rfl

lemma tok_eval_c4a : tokenize (strOf "(Max(|x|, |y|, |z|)) = 1") = some tokC4a := rfl

lemma tok_eval_c4b : tokenize (strOf "Max(Abs(x), Abs(y), Abs(z)) = 1") = some tokC4b := rfl

lemma tok_eval_c6a : tokenize (strOf "((x^2/3^2) + (y^2/3^2)) = 1") = some tokC6a := rfl

lemma tok_eval_c6b : tokenize (strOf "x**2/3**2 + y**2/3**2 = 1") = some tokC6b := rfl

lemma parse_pair_c3a : parseEquation (strOf "((x^2) + (y^2)) = 25") =
    parseEquation (strOf "x**2 + y**2 = 25") := by
  unfold parseEquation
  rw [tok_eval_c3a1, tok_eval_c3a2]
  rfl

lemma parse_some_c3a : (parseEquation (strOf "((x^2) + (y^2)) = 25")).isSome = true := by
  unfold parseEquation
  rw [tok_eval_c3a1]
  rfl

lemma parse_pair_c3b : parseEquation (strOf "((x^2) + (y^2) + (z^2)) = 25") =
    parseEquation (strOf "x**2 + y**2 + z**2 = 25") := by
  unfold parseEquation
  rw [tok_eval_c3b1, tok_eval_c3b2]
  rfl

lemma parse_some_c3b : (parseEquation (strOf "((x^2) + (y^2) + (z^2)) = 25")).isSome = true := by
  unfold parseEquation
  rw [tok_eval_c3b1]
  rfl

lemma parse_pair_c4 : parseEquation (strOf "(Max(|x|, |y|, |z|)) = 1") =
    parseEquation (strOf "Max(Abs(x), Abs(y), Abs(z)) = 1") := by
  unfold parseEquation
  rw [tok_eval_c4a, tok_eval_c4b]
  rfl

lemma parse_some_c4 : (parseEquation (strOf "(Max(|x|, |y|, |z|)) = 1")).isSome = true := by
  unfold parseEquation
  rw [tok_eval_c4a]
  rfl

lemma parse_pair_c6 : parseEquation (strOf "((x^2/3^2) + (y^2/3^2)) = 1") =
    parseEquation (strOf "x**2/3**2 + y**2/3**2 = 1") := by
  unfold parseEquation
  rw [tok_eval_c6a, tok_eval_c6b]
  rfl

lemma parse_some_c6 : (parseEquation (strOf "((x^2/3^2) + (y^2/3^2)) = 1")).isSome = true := by
  unfold parseEquation
  rw [tok_eval_c6a]
  rfl

lemma equivStr_of_eq (s1 s2 : Str) (hp : parseEquation s1 = parseEquation s2)
    (hs : (parseEquation s1).isSome = true) : EquivStr s1 s2 :=
  ⟨hs, fun _ => by rw [hp]⟩

/-! ## Claim theorems -/

/-- C1 counterexample: the claim fails as stated.  The Astroid identity
satisfies its dimension requirement at dimension 2, `expand_identity`
returns normally, yet the result still contains both the text `Dim` and
the macro call `sum(`, because the macro argument `|Dim|^(2/3)` contains
parentheses and is never matched.  Bare `Dim` outside any macro also
survives `expand` verbatim. -/
theorem C1_counterexample :
    expand_identity defaultBuilder (strOf "Astroid") 2 none =
      .ok (strOf "sum(|Dim|^(2/3)) = 1")
    ∧ occurs (strOf "Dim") (strOf "sum(|Dim|^(2/3)) = 1") = true
    ∧ occurs (strOf "sum(") (strOf "sum(|Dim|^(2/3)) = 1") = true
    ∧ expand defaultBuilder (strOf "Dim") 2 [] = .ok (strOf "Dim") :=
  ⟨rfl, rfl, rfl, rfl⟩

set_option maxRecDepth 100000 in
/-- C1 amended: for every identity of the library other than Astroid and
every dimension `d` with `min_dim ≤ d ≤ 10`, `expand_identity` returns
normally and its result contains no `Dim` text and no macro-call text. -/
theorem C1_amended :
    (defaultBuilder.identities.filter (fun e => !(e.1 == strOf "Astroid"))).all
      (fun e => identity_clean_check defaultBuilder e.1 e.2) = true := by
  decide

/-- C2: the claim that `expand` at dimension 11 fails with
`DimensionOutOfRange` is contradicted by the code: `expand` never calls
`get_coords`, and `coord_names[:11]` silently truncates to the ten
available axes, so the call returns a ten-term string; the bound check
exists only in the never-called `get_coords`. -/
theorem C2_failing_input :
    expand defaultBuilder (strOf "sum(Dim^2) = 25") 11 [] =
      .ok (strOf
        "((x^2) + (y^2) + (z^2) + (w^2) + (v^2) + (u^2) + (t^2) + (s^2) + (r^2) + (q^2)) = 25")
    ∧ get_coords defaultBuilder 11 = .error .dimensionTooLarge :=
  ⟨rfl, rfl⟩

/-- C4: at the failing input `expand("max(|Dim|) = 1", 3, {})` the code
returns `(Max(|x|, |y|, |z|)) = 1`, which is mathematically equivalent
to `Max(Abs(x), Abs(y), Abs(z)) = 1` but is not expressed in the
declared vocabulary: it contains the bar character and no `Abs` call,
contradicting the docstring examples of `expand` itself. -/
theorem C4_failing_input :
    expand defaultBuilder (strOf "max(|Dim|) = 1") 3 [] =
      .ok (strOf "(Max(|x|, |y|, |z|)) = 1")
    ∧ occurs (strOf "|") (strOf "(Max(|x|, |y|, |z|)) = 1") = true
    ∧ occurs (strOf "Abs") (strOf "(Max(|x|, |y|, |z|)) = 1") = false
    ∧ EquivStr (strOf "(Max(|x|, |y|, |z|)) = 1")
        (strOf "Max(Abs(x), Abs(y), Abs(z)) = 1") :=
  ⟨rfl, rfl, rfl, equivStr_of_eq _ _ parse_pair_c4 parse_some_c4⟩

/-- C5 counterexample: on a macro call whose argument contains a
parenthesis, `expand` does not fail at all; it returns the input with
the macro silently left unexpanded. -/
theorem C5_counterexample :
    expand defaultBuilder (strOf "sum((Dim+1)^2) = 1") 2 [] =
      .ok (strOf "sum((Dim+1)^2) = 1") :=
  rfl

/-- C5 amended: no `MalformedMacroCall` failure exists in the code; a
macro call whose argument contains a parenthesis is never matched by the
pattern, and `expand` returns normally with the call left verbatim, for
both shapes named by the specification. -/
theorem C5_amended :
    expand defaultBuilder (strOf "sum((Dim+1)^2) = 1") 2 [] =
      .ok (strOf "sum((Dim+1)^2) = 1")
    ∧ expand defaultBuilder (strOf "sum(|Dim|^(2/3)) = 1") 2 [] =
      .ok (strOf "sum(|Dim|^(2/3)) = 1")
    ∧ find_call (strOf "sum((Dim+1)^2) = 1") = none
    ∧ find_call (strOf "sum(|Dim|^(2/3)) = 1") = none :=
  ⟨rfl, rfl, rfl, rfl⟩

/-- C8: `expand` and `expand_identity` are pure functions of the builder
and their arguments.  The state-passing translations hand the builder
back unchanged, and the first component of a call is unaffected by any
other call made in between, so two calls on identical inputs return
identical strings. -/
theorem C8_expand_pure :
    ∀ (b : Builder) (s : Str) (d : Nat) (ps : List (Str × Str)) (n : Str) (d2 : Nat)
      (ov : Option (List (Str × Str))) (s2 : Str) (d3 : Nat) (ps2 : List (Str × Str)),
      (expandSt b s d ps).2 = b
      ∧ (expand_identitySt b n d2 ov).2 = b
      ∧ (expandSt ((expandSt b s2 d3 ps2).2) s d ps).1 = (expandSt b s d ps).1
      ∧ (expandSt ((expand_identitySt b n d2 ov).2) s d ps).1 = (expandSt b s d ps).1
      ∧ (expand_identitySt ((expandSt b s2 d3 ps2).2) n d2 ov).1 =
          (expand_identitySt b n d2 ov).1 :=
  fun _ _ _ _ _ _ _ _ _ _ => ⟨rfl, rfl, rfl, rfl, rfl⟩

/-- Instance of C8 at concrete inputs. -/
theorem C8_witness :
    (expandSt defaultBuilder (strOf "sum(Dim^2) = r^2") 3 [(strOf "r", strOf "5")]).2 =
      defaultBuilder :=
  (C8_expand_pure defaultBuilder (strOf "sum(Dim^2) = r^2") 3 [(strOf "r", strOf "5")]
    (strOf "Torus") 3 none (strOf "max(|Dim|) = 1") 2 []).1

/-- C10 counterexample: the identity `Circle/Sphere` uses the parameter
name `r`, which is also an entry of the coordinate axis table. -/
theorem C10_counterexample :
    (lookup_identity defaultBuilder (strOf "Circle/Sphere")).map
        (fun e => e.params.map (·.1)) = some [strOf "r"]
    ∧ strOf "r" ∈ defaultBuilder.coord_names := by
  exact ⟨rfl, by decide⟩

/-- C10 amended: all default parameter names of the library are single
characters, but the name `r` — used by `Circle/Sphere` among others — is
also axis-table entry 8, and `Torus` uses the non-lowercase name `R`;
consequently, at dimension 9 parameter substitution rewrites the axis
name `r` introduced by expansion (the ninth term of the sphere becomes
`(5^2)` and no `r` survives on the left side). -/
theorem C10_amended :
    defaultBuilder.identities.all
      (fun e => e.2.params.all (fun p => p.1.length == 1)) = true
    ∧ (lookup_identity defaultBuilder (strOf "Circle/Sphere")).map
        (fun e => e.params.map (·.1)) = some [strOf "r"]
    ∧ defaultBuilder.coord_names.get? 8 = some (strOf "r")
    ∧ (lookup_identity defaultBuilder (strOf "Torus")).map
        (fun e => e.params.map (·.1)) = some [strOf "R", strOf "r"]
    ∧ 'R'.isLower = false
    ∧ expand_identity defaultBuilder (strOf "Circle/Sphere") 9 none =
        .ok (strOf "((x^2) + (y^2) + (z^2) + (w^2) + (v^2) + (u^2) + (t^2) + (s^2) + (5^2)) = 5^2") :=
  ⟨by decide, rfl, rfl, rfl, rfl, rfl⟩


/-- C3: the macro pass turns one `sum`/`prod`/`max`/`min` call with a
parenthesis-free argument into the specified combination of one copy per
axis (copies joined by `+` for `sum`, `*` for `prod`, wrapped in
`Max(...)`/`Min(...)` calls otherwise, `Dim` replaced by the axis names
in table order); in particular the two sphere examples expand to strings
equivalent to `x**2 + y**2 = 25` and `x**2 + y**2 + z**2 = 25`. -/
theorem C3_aggregate_macro :
    (∀ (k : AggFn) (d : Nat) (E : Str), E ≠ [] →
      (∀ c ∈ E, nonParen c = true) →
      find_call ('(' :: (specCombine k d E ++ [')'])) = none →
      expand_functions defaultBuilder (func_name k ++ '(' :: (E ++ [')'])) d =
        .ok ('(' :: (specCombine k d E ++ [')'])))
    ∧ (expand defaultBuilder (strOf "sum(Dim^2) = 25") 2 [] =
        .ok (strOf "((x^2) + (y^2)) = 25")
      ∧ EquivStr (strOf "((x^2) + (y^2)) = 25") (strOf "x**2 + y**2 = 25"))
    ∧ (expand defaultBuilder (strOf "sum(Dim^2) = 25") 3 [] =
        .ok (strOf "((x^2) + (y^2) + (z^2)) = 25")
      ∧ EquivStr (strOf "((x^2) + (y^2) + (z^2)) = 25") (strOf "x**2 + y**2 + z**2 = 25")) := by
  refine ⟨?_, ⟨rfl, equivStr_of_eq _ _ parse_pair_c3a parse_some_c3a⟩,
    ⟨rfl, equivStr_of_eq _ _ parse_pair_c3b parse_some_c3b⟩⟩
  exact expand_functions_single_call

set_option maxHeartbeats 2000000 in
/-- Instance of C3's general part at the sphere template in two
dimensions. -/
theorem C3_witness :
    expand_functions defaultBuilder (func_name .sumF ++ '(' :: (strOf "Dim^2" ++ [')'])) 2 =
      .ok ('(' :: (specCombine .sumF 2 (strOf "Dim^2") ++ [')'])) :=
  C3_aggregate_macro.1 .sumF 2 (strOf "Dim^2") (by decide) (by decide) (by decide)

/-- C6: parameter substitution replaces only whole-word occurrences (a
name occurring strictly inside a longer word is never rewritten), leaves
parameters missing from the mapping untouched without raising, and on
the ellipse example produces a string equivalent to
`x**2/3**2 + y**2/3**2 = 1`. -/
theorem C6_whole_word_params :
    (∀ (name val s : Str), name ≠ [] →
      (∀ i, i < s.length → ¬ wordMatchAt name s i) → sub_word name val s = s)
    ∧ expand defaultBuilder (strOf "sum(|Dim|^p) = 1") 2 [] =
        .ok (strOf "((|x|^p) + (|y|^p)) = 1")
    ∧ (expand defaultBuilder (strOf "sum(Dim^2/a^2) = 1") 2 [(strOf "a", strOf "3")] =
        .ok (strOf "((x^2/3^2) + (y^2/3^2)) = 1")
      ∧ EquivStr (strOf "((x^2/3^2) + (y^2/3^2)) = 1")
          (strOf "x**2/3**2 + y**2/3**2 = 1")) := by
  refine ⟨?_, rfl, rfl, equivStr_of_eq _ _ parse_pair_c6 parse_some_c6⟩
  intro name val s hn h
  unfold sub_word
  rw [if_neg (fun hc => hn (List.isEmpty_iff.mp hc))]
  exact sub_word_aux_keeps name val hn (s.length + 1) s none (by omega) h

set_option maxHeartbeats 2000000 in
/-- Instance of C6's whole-word part: the parameter `a` does not match
inside the identifiers `ab` and `ba`. -/
theorem C6_witness :
    sub_word (strOf "a") (strOf "3") (strOf "Max(ab, ba)") = strOf "Max(ab, ba)" :=
  C6_whole_word_params.1 (strOf "a") (strOf "3") (strOf "Max(ab, ba)")
    (by decide) (by decide)

set_option maxHeartbeats 2000000 in
/-- C7: under the dimension precondition, `expand` fails with
`IndexOutOfRange` exactly when the input contains a `Dim[i]` with
`i ≥ dimension`; the indexed pass runs before the macro pass; and every
in-range `Dim[i]` is replaced by the axis name at table position `i`. -/
theorem C7_index_out_of_range :
    ∀ (s : Str) (d : Nat) (ps : List (Str × Str)), d ≤ 10 →
      isIndexErr (expand defaultBuilder s d ps) = has_oor s d
      ∧ expand defaultBuilder s d ps = (replace_indexed_dims defaultBuilder s d).bind
          (fun t1 => (expand_functions defaultBuilder t1 d).map (fun t2 => replace_params t2 ps))
      ∧ (∀ i, i < d →
          replace_indexed_dims defaultBuilder
            ('D' :: 'i' :: 'm' :: '[' :: Char.ofNat (48 + i) :: ']' :: []) d =
            .ok (defaultBuilder.coord_names.getD i [])) := by
  intro s d ps hd
  refine ⟨?_, expand_as_passes _ _ _ _, fun i hi => indexed_single d i hd hi⟩
  rw [isIndexErr_expand]
  exact rid_aux_iff d hd (s.length + 1) s (by omega)

set_option maxHeartbeats 2000000 in
/-- Instance of C7 at `Dim[5]` against dimension 3. -/
theorem C7_witness :
    isIndexErr (expand defaultBuilder (strOf "Dim[5] + x") 3 []) =
      has_oor (strOf "Dim[5] + x") 3
    ∧ has_oor (strOf "Dim[5] + x") 3 = true
    ∧ expand defaultBuilder (strOf "Dim[5] + x") 3 [] = .error (.indexOutOfRange 5 3) :=
  ⟨(C7_index_out_of_range (strOf "Dim[5] + x") 3 [] (by decide)).1, rfl, rfl⟩


set_option maxHeartbeats 2000000 in
/-- C9: for every notation string and in-range dimension the macro-resolution
loop of `_expand_functions` terminates in at most one iteration per
macro-call occurrence: the number of matchable positions is bounded by the
number of macro-call occurrences, each replacement step removes the matched
call and introduces no newly matchable call (the matchable-position count
strictly decreases), and the loop run with one fuel unit per macro-call
occurrence already returns normally with the very string the actual loop
returns. -/
theorem C9_loop_terminates (s : Str) (d : Nat) (hd1 : 1 ≤ d) (hd10 : d ≤ 10) :
    phi s ≤ call_occurrences s ∧
    (∀ pre k i post, find_call s = some (pre, k, i, post) →
      phi (pre ++ '(' :: (replacement defaultBuilder k i d ++ ')' :: post)) < phi s) ∧
    ∃ r, expand_functions_aux defaultBuilder d (call_occurrences s) s = .ok r ∧
      expand_functions defaultBuilder s d = .ok r := by
  refine ⟨phi_le_call_occurrences s,
    fun pre k i post hfc => step_phi_lt d hd1 s pre i post k hfc, ?_⟩
  obtain ⟨r, hr⟩ := efa_ok_of_phi d hd1 (call_occurrences s) s (phi_le_call_occurrences s)
  refine ⟨r, hr, ?_⟩
  unfold expand_functions
  exact efa_mono d (call_occurrences s) s r hr s.length (call_occurrences_le_length s)

set_option maxHeartbeats 2000000 in
/-- C9 witness: the sphere notation at dimension 2 instantiates the
termination theorem; its hypotheses `1 ≤ 2` and `2 ≤ 10` hold by
computation. -/
theorem C9_witness :
    phi (strOf "sum(Dim^2) = 25") ≤ call_occurrences (strOf "sum(Dim^2) = 25") ∧
    (∀ pre k i post, find_call (strOf "sum(Dim^2) = 25") = some (pre, k, i, post) →
      phi (pre ++ '(' :: (replacement defaultBuilder k i 2 ++ ')' :: post))
        < phi (strOf "sum(Dim^2) = 25")) ∧
    ∃ r, expand_functions_aux defaultBuilder 2
        (call_occurrences (strOf "sum(Dim^2) = 25")) (strOf "sum(Dim^2) = 25") = .ok r ∧
      expand_functions defaultBuilder (strOf "sum(Dim^2) = 25") 2 = .ok r :=
  C9_loop_terminates (strOf "sum(Dim^2) = 25") 2 (by decide) (by decide)

end MathTool
